import Mathlib

/-!
Verification development for the `cPath` A* pathfinder (src/src/Mobs/Path.cpp).

The C++ source is shallowly embedded as executable Lean definitions:

* `Vec3` models `Vector3i` (integer world coordinates; `Floor()` is the
  identity on integer vectors and is omitted).
* `Block` models the information `cPath::IsSolid` extracts from the world:
  the block-type tests `BlockType == E_BLOCK_FENCE`, `E_BLOCK_FENCE_GATE`,
  `E_BLOCK_STATIONARY_WATER` become the `special` field, and the external
  predicate `cBlockInfo::IsSolid(BlockType)` becomes the `solid` field.
* `World` models the chunk map reached through `GetNeighborChunk` /
  `GetBlockTypeMeta`: `none` means the chunk is missing or invalid
  (the code then treats the location as solid).
* `PathState` carries the mutable members of `cPath` (`m_Map`, `m_OpenList`,
  `m_Status`, `m_PathPoints`, `m_StepsLeft`, ...) plus ghost
  instrumentation fields (`oracle`, `relaxLog`, `considerLog`, `poppedLog`,
  `stepsExecuted`, `budgetFinalized`) that only record which internal
  operations ran; no algorithmic decision reads them.
* C++ heap cells (`cPathCell *`) are identified by their immutable
  `m_Location` key; `m_Map` becomes an association list and pointer writes
  become map updates. The invariant that the map never holds two cells for
  one location is proved, not assumed (see the cache theorems below).
* `GetCell` and `IsSolid` are mutually recursive through the fence/liquid
  side effects (resolving a fence touches the cell above, whose creation
  consults the oracle again, and so on), and the recursion depth is
  unbounded for adversarial worlds, so both take a fuel argument; `none`
  means the fuel ran out. All statements are about runs that complete.
* The compile-time configuration of the source is fixed as in the file:
  `DISTANCE_MANHATTAN 0`, `HEURISTICS_ONLY 0`, `CALCULATIONS_PER_STEP 5`.
* `Vector3i::Length() * 10` truncated to `int` is embedded exactly as
  `Nat.sqrt (100 * squared-distance)`, the floor of the real value; the
  double-precision detour of the source can differ from the exact floor
  only when `10 * sqrt(d)` is within double rounding error of an integer,
  which does not occur at any value appearing in the theorems below.
* `std::priority_queue` with `compareHeuristics` (`m_F` greater-than) pops
  a minimal-`m_F` cell; `m_F` is never mutated while a cell is in the open
  list (shown by the relaxation theorems below), so the queue is embedded
  as the list of open locations, popping the earliest minimal-`m_F` entry.
  Tie order among equal `m_F` is unspecified in the source; the concrete
  scenario theorems below only pop strict minima, where both agree.
-/

namespace MCPath

set_option maxRecDepth 8000

/-- `Vector3i`: an integer 3-D world coordinate. -/
structure Vec3 where
  x : Int
  y : Int
  z : Int
deriving DecidableEq, Repr

instance : Add Vec3 := ⟨fun a b => ⟨a.x + b.x, a.y + b.y, a.z + b.z⟩⟩

/-- `Vector3i(0, 1, 0)`, the offset to the cell directly above. -/
def vUp : Vec3 := ⟨0, 1, 0⟩

/-- `Vector3i(0, -1, 0)`, the offset to the cell directly below. -/
def vDown : Vec3 := ⟨0, -1, 0⟩

/-- Which of the specially-handled block types a block is:
`E_BLOCK_FENCE`, `E_BLOCK_FENCE_GATE`, `E_BLOCK_STATIONARY_WATER`,
or any other block type. -/
inductive SpecialKind
  | fence
  | fenceGate
  | stationaryWater
  | plain
deriving DecidableEq, Repr

/-- The facts `cPath::IsSolid` reads about the block at a location:
its special-case type and the value of `cBlockInfo::IsSolid` for it. -/
structure Block where
  special : SpecialKind
  solid : Bool
deriving DecidableEq, Repr

/-- The world as visible to `cPath::IsSolid`: `none` models a missing or
invalid chunk (`GetNeighborChunk` returning `nullptr` or `!IsValid()`). -/
def World : Type := Vec3 → Option Block

/-- `eCellStatus`. -/
inductive CellStatus
  | OPENLIST
  | CLOSEDLIST
  | NOLIST
deriving DecidableEq, Repr

/-- `ePathFinderStatus` (the three values used by `cPath`). -/
inductive PathStatus
  | CALCULATING
  | PATH_FOUND
  | PATH_NOT_FOUND
deriving DecidableEq, Repr

/-- `cPathCell`. The C++ cell leaves `m_F`, `m_G`, `m_H`, `m_Status` and
`m_Parent` uninitialized until assigned; no code path reads them before
their first assignment, so fresh cells here carry inert defaults
(`0`, `NOLIST`, `none`). `m_Parent` is a location key into the map
instead of a raw pointer. -/
structure PathCell where
  loc : Vec3
  f : Int
  g : Int
  h : Int
  status : CellStatus
  parent : Option Vec3
  isSolid : Bool
deriving DecidableEq, Repr

/-- The mutable state of one `cPath` search, plus ghost logs.
`map` is `m_Map`, `openList` is `m_OpenList` (locations, see the
priority-queue note in the header), `status` is `m_Status`,
`pathPoints` is `m_PathPoints` (goal-to-start order), `stepsLeft` is
`m_StepsLeft`, `destination`/`source` are `m_Destination`/`m_Source`.
Ghost fields: `oracle` logs every `cPath::IsSolid` invocation;
`relaxLog` logs every `ProcessCell` invocation (cell, caller, gDelta);
`considerLog` logs every `ProcessIfWalkable` invocation (cell, caller,
cost); `poppedLog` logs every successful `OpenListPop` (location and the
popped cell's `m_G`); `stepsExecuted` counts `StepOnce` invocations;
`budgetFinalized` records whether `cPath::Step` hit its loop bound. -/
structure PathState where
  map : List (Vec3 × PathCell)
  oracle : List Vec3
  openList : List Vec3
  status : PathStatus
  pathPoints : List Vec3
  destination : Vec3
  source : Vec3
  stepsLeft : Int
  stepsExecuted : Nat
  budgetFinalized : Bool
  relaxLog : List (Vec3 × Option Vec3 × Int)
  considerLog : List (Vec3 × Vec3 × Int)
  poppedLog : List (Vec3 × Int)
deriving DecidableEq, Repr

/-- Lookup in `m_Map` (first entry with the given key). -/
def mlookup : List (Vec3 × PathCell) → Vec3 → Option PathCell
  | [], _ => none
  | kc :: rest, l => if kc.1 = l then some kc.2 else mlookup rest l

/-- Write through a `cPathCell *` obtained from the map: update the entry
at the given key. -/
def mupdate (m : List (Vec3 × PathCell)) (l : Vec3) (fn : PathCell → PathCell) :
    List (Vec3 × PathCell) :=
  m.map fun kc => if kc.1 = l then (kc.1, fn kc.2) else kc

/-- The keys of the map. -/
def mkeys (m : List (Vec3 × PathCell)) : List Vec3 := m.map Prod.fst

/-- The body of `cPath::GetCell`, parameterized over the `IsSolid` it
calls (the two functions are mutually recursive through the fence/liquid
side effects; `getCell` below ties the knot with fuel): return the
cached cell, or create it, insert it into the map (before resolving
solidity, exactly as the C++ inserts the pointer before calling
`IsSolid`), resolve solidity through the oracle, and finally assign
`m_IsSolid` and `m_Status = NOLIST` on the cell. -/
def getCellF (isSolidRec : PathState → Vec3 → Option (PathState × Bool))
    (s : PathState) (l : Vec3) : Option (PathState × PathCell) :=
  match mlookup s.map l with
  | some c => some (s, c)
  | none =>
    let c0 : PathCell := ⟨l, 0, 0, 0, .NOLIST, none, false⟩
    let s1 : PathState := { s with map := (l, c0) :: s.map }
    match isSolidRec s1 l with
    | none => none
    | some (s2, b) =>
      let s3 : PathState :=
        { s2 with map := mupdate s2.map l fun c => { c with isSolid := b, status := .NOLIST } }
      match mlookup s3.map l with
      | some c => some (s3, c)
      | none => none

/-- The body of `cPath::IsSolid`, parameterized over the `GetCell` it
calls: a missing/invalid chunk is treated as solid; a fence or fence
gate forces the cell above solid; stationary water forces the cell below
solid (both through `GetCell`, which may create those cells); the return
value is `cBlockInfo::IsSolid` of the block type. The ghost `oracle` log
records the invocation. -/
def isSolidF (w : World)
    (getCellRec : PathState → Vec3 → Option (PathState × PathCell))
    (s : PathState) (l : Vec3) : Option (PathState × Bool) :=
  let s0 : PathState := { s with oracle := s.oracle ++ [l] }
  match w l with
  | none => some (s0, true)
  | some b =>
    let afterFence : Option PathState :=
      if b.special = .fence ∨ b.special = .fenceGate then
        match getCellRec s0 (l + vUp) with
        | none => none
        | some (sA, _) =>
          some { sA with map := mupdate sA.map (l + vUp) fun c => { c with isSolid := true } }
      else some s0
    match afterFence with
    | none => none
    | some sB =>
      let afterWater : Option PathState :=
        if b.special = .stationaryWater then
          match getCellRec sB (l + vDown) with
          | none => none
          | some (sC, _) =>
            some { sC with map := mupdate sC.map (l + vDown) fun c => { c with isSolid := true } }
        else some sB
      match afterWater with
      | none => none
      | some sD => some (sD, b.solid)

/-- The fueled pair (`GetCell`, `IsSolid`), built by plain `Nat.rec` so
that it evaluates by linear-time kernel reduction (the equation lemmas
`getCell_zero` … `isSolid_succ` below recover the usual unfolding). -/
def cacheFuns (w : World) (fuel : Nat) :
    (PathState → Vec3 → Option (PathState × PathCell)) ×
    (PathState → Vec3 → Option (PathState × Bool)) :=
  Nat.rec (motive := fun _ =>
      (PathState → Vec3 → Option (PathState × PathCell)) ×
      (PathState → Vec3 → Option (PathState × Bool)))
    (fun _ _ => none, fun _ _ => none)
    (fun _ prev => (getCellF prev.2, isSolidF w prev.1))
    fuel

/-- `cPath::GetCell` with fuel (out of fuel evaluates to `none`). -/
def getCell (w : World) (fuel : Nat) : PathState → Vec3 → Option (PathState × PathCell) :=
  (cacheFuns w fuel).1

/-- `cPath::IsSolid` with fuel (out of fuel evaluates to `none`). -/
def isSolid (w : World) (fuel : Nat) : PathState → Vec3 → Option (PathState × Bool) :=
  (cacheFuns w fuel).2

theorem getCell_zero (w : World) (s : PathState) (l : Vec3) :
    getCell w 0 s l = none := rfl

theorem getCell_succ (w : World) (fuel : Nat) (s : PathState) (l : Vec3) :
    getCell w (fuel + 1) s l = getCellF (isSolid w fuel) s l := rfl

theorem isSolid_zero (w : World) (s : PathState) (l : Vec3) :
    isSolid w 0 s l = none := rfl

theorem isSolid_succ (w : World) (fuel : Nat) (s : PathState) (l : Vec3) :
    isSolid w (fuel + 1) s l = isSolidF w (getCell w fuel) s l := rfl

/-- Upward scan for the integer square root; `fuel` bounds the scan.
Structural recursion keeps it kernel-computable (`Nat.sqrt` of this
toolchain is well-founded and does not reduce); `fsqrt_eq_sqrt` below
proves it agrees with `Nat.sqrt`. -/
def fsqrtAux (n : Nat) : Nat → Nat → Nat
  | 0, k => k
  | fuel + 1, k => if (k + 1) * (k + 1) ≤ n then fsqrtAux n fuel (k + 1) else k

/-- Kernel-computable floor square root. -/
def fsqrt (n : Nat) : Nat := fsqrtAux n n 0

theorem fsqrtAux_spec (n : Nat) :
    ∀ (fuel k : Nat), k * k ≤ n → n < (k + fuel + 1) * (k + fuel + 1) →
      fsqrtAux n fuel k * fsqrtAux n fuel k ≤ n ∧
      n < (fsqrtAux n fuel k + 1) * (fsqrtAux n fuel k + 1) := by
  intro fuel
  induction fuel with
  | zero =>
    intro k hk hub
    exact ⟨hk, by simpa using hub⟩
  | succ m ih =>
    intro k hk hub
    simp only [fsqrtAux]
    split
    · next hle =>
      refine ih (k + 1) hle ?_
      have harr : k + 1 + m + 1 = k + (m + 1) + 1 := by omega
      rw [harr]
      exact hub
    · next hgt => exact ⟨hk, by omega⟩

/-- The scan agrees with the library square root. -/
theorem fsqrt_eq_sqrt (n : Nat) : fsqrt n = Nat.sqrt n := by
  obtain ⟨h1, h2⟩ := fsqrtAux_spec n n 0 (by simp) (by nlinarith)
  have hle : fsqrt n ≤ Nat.sqrt n := Nat.le_sqrt.mpr h1
  have hlt : Nat.sqrt n < fsqrt n + 1 := Nat.sqrt_lt.mpr h2
  omega

/-- Squared Euclidean distance of two coordinates. -/
def sqDist (a b : Vec3) : Int :=
  (a.x - b.x) ^ 2 + (a.y - b.y) ^ 2 + (a.z - b.z) ^ 2

/-- The heuristic of `ProcessCell` with `DISTANCE_MANHATTAN 0`:
`(int)((loc - dest).Length() * 10)` as the exact floor
`⌊10 * sqrt(squared distance)⌋ = ⌊sqrt(100 * squared distance)⌋`. -/
def heuristicH (l dest : Vec3) : Int := (fsqrt (100 * (sqDist l dest).toNat) : Int)

/-- `cPath::ProcessCell`. The cell is addressed by its location (it is
always a cell previously returned by `GetCell`, hence in the map); the
caller is `none` exactly when the C++ passes `nullptr` (the seed call).
Case 3 with a null caller would dereference null in C++; it cannot be
reached and yields `none` here. The ghost `relaxLog` records the
invocation. With the source's configuration the new cell's cost is
`m_F = m_H + m_G`, and the open-case update is literally
`m_G = NewG; m_H = m_F + m_G` with `m_F` untouched. -/
def processCell (s : PathState) (cellLoc : Vec3) (caller : Option Vec3) (gDelta : Int) :
    Option PathState :=
  match mlookup s.map cellLoc with
  | none => none
  | some cell =>
    let s := { s with relaxLog := s.relaxLog ++ [(cellLoc, caller, gDelta)] }
    if cell.status = .CLOSEDLIST then
      some s
    else if cell.status = .NOLIST then
      let newG : Option Int :=
        match caller with
        | none => some 0
        | some cl => (mlookup s.map cl).map fun cc => cc.g + gDelta
      match newG with
      | none => none
      | some gval =>
        let hval : Int := heuristicH cellLoc s.destination
        let fval : Int := hval + gval
        let m2 := mupdate s.map cellLoc (fun c =>
          { c with parent := caller, g := gval, h := hval, f := fval, status := .OPENLIST })
        some { s with map := m2, openList := s.openList ++ [cellLoc] }
    else
      match caller with
      | none => none
      | some cl =>
        match mlookup s.map cl with
        | none => none
        | some cc =>
          let newG : Int := cc.g + gDelta
          if newG < cell.g then
            some { s with map := mupdate s.map cellLoc fun c =>
                { c with g := newG, h := c.f + newG, parent := some cl } }
          else
            some s

/-- The state with a `ProcessIfWalkable` invocation recorded (ghost). -/
def addConsider (s : PathState) (l parent : Vec3) (cost : Int) : PathState :=
  { s with considerLog := s.considerLog ++ [(l, parent, cost)] }

/-- `cPath::ProcessIfWalkable`: resolve the candidate, then (with the
source's short-circuit order) require the candidate non-solid, the cell
below solid, and the cell above non-solid, before calling `ProcessCell`. -/
def processIfWalkable (w : World) (fuel : Nat) (s : PathState) (l parent : Vec3)
    (cost : Int) : Option PathState :=
  match getCell w fuel (addConsider s l parent cost) l with
  | none => none
  | some (s1, cell) =>
    if cell.isSolid then some s1
    else
      match getCell w fuel s1 (l + vDown) with
      | none => none
      | some (s2, below) =>
        if below.isSolid then
          match getCell w fuel s2 (l + vUp) with
          | none => none
          | some (s3, above) =>
            if above.isSolid then some s3
            else processCell s3 l (some parent) cost
        else some s2

/-- One diagonal candidate `(x, 0, z)` of `cPath::StepOnce`: the corner
cells `(x,0,0)` and `(0,0,z)` must be non-solid (corner-cutting guard)
and the floor cells `(x,-1,0)` and `(0,-1,z)` must be solid (sharp-turn
guard), in the source's short-circuit order, before the diagonal is
handed to `ProcessIfWalkable` with cost 14. -/
def diagStep (w : World) (fuel : Nat) (cur : Vec3) (x z : Int) (s : PathState) :
    Option PathState :=
  match getCell w fuel s (cur + ⟨x, 0, 0⟩) with
  | none => none
  | some (s1, c1) =>
    if c1.isSolid then some s1
    else
      match getCell w fuel s1 (cur + ⟨0, 0, z⟩) with
      | none => none
      | some (s2, c2) =>
        if c2.isSolid then some s2
        else
          match getCell w fuel s2 (cur + ⟨x, -1, 0⟩) with
          | none => none
          | some (s3, c3) =>
            if c3.isSolid then
              match getCell w fuel s3 (cur + ⟨0, -1, z⟩) with
              | none => none
              | some (s4, c4) =>
                if c4.isSolid then processIfWalkable w fuel s4 (cur + ⟨x, 0, z⟩) cur 14
                else some s4
            else some s3

/-- The twelve orthogonal offsets of `StepOnce` in source order:
for `i = -1, 0, 1` the four directions `(1,i,0)`, `(-1,i,0)`, `(0,i,1)`,
`(0,i,-1)`, each with cost 10. -/
def orthoOffsets : List Vec3 :=
  [⟨1, -1, 0⟩, ⟨-1, -1, 0⟩, ⟨0, -1, 1⟩, ⟨0, -1, -1⟩,
   ⟨1, 0, 0⟩, ⟨-1, 0, 0⟩, ⟨0, 0, 1⟩, ⟨0, 0, -1⟩,
   ⟨1, 1, 0⟩, ⟨-1, 1, 0⟩, ⟨0, 1, 1⟩, ⟨0, 1, -1⟩]

/-- `ProcessIfWalkable` over a list of offsets relative to `cur`. -/
def processOffsets (w : World) (fuel : Nat) (cur : Vec3) :
    List Vec3 → PathState → Option PathState
  | [], s => some s
  | off :: rest, s =>
    match processIfWalkable w fuel s (cur + off) cur 10 with
    | none => none
    | some s1 => processOffsets w fuel cur rest s1

/-- `m_F` of the cell at a location (the live priority the
`compareHeuristics` comparator reads); unreachable default 0. -/
def fOf (s : PathState) (l : Vec3) : Int :=
  match mlookup s.map l with
  | some c => c.f
  | none => 0

/-- Earliest minimal-`m_F` element of the open list (see the
priority-queue note in the header). -/
def selectMin (s : PathState) : List Vec3 → Option Vec3
  | [] => none
  | l :: rest =>
    match selectMin s rest with
    | none => some l
    | some m => if fOf s l ≤ fOf s m then some l else some m

/-- Remove the first occurrence of a location from the open list. -/
def removeFirst : List Vec3 → Vec3 → List Vec3
  | [], _ => []
  | x :: xs, v => if x = v then xs else x :: removeFirst xs v

/-- `cPath::OpenListPop`: `none` when the open list is empty; otherwise
remove a minimal-`m_F` cell and mark it `CLOSEDLIST`. The ghost
`poppedLog` records the location and its `m_G` at pop time. -/
def openListPop (s : PathState) : Option (PathState × Vec3) :=
  match selectMin s s.openList with
  | none => none
  | some l =>
    let g : Int :=
      match mlookup s.map l with
      | some c => c.g
      | none => 0
    let m2 := mupdate s.map l (fun c => { c with status := .CLOSEDLIST })
    some ({ s with openList := removeFirst s.openList l, map := m2,
                   poppedLog := s.poppedLog ++ [(l, g)] }, l)

/-- `cPath::FinishCalculation()`: free every cached cell and clear the
open list (the ghost logs are not part of the C++ state and stay). -/
def finishCalculation (s : PathState) : PathState :=
  { s with map := [], openList := [] }

/-- `cPath::FinishCalculation(ePathFinderStatus)`. -/
def finishCalculationWith (st : PathStatus) (s : PathState) : PathState :=
  finishCalculation { s with status := st }

/-- The five goal-adjacent locations whose popping terminates the search
with `PATH_FOUND`: north/south/east/west of the destination and directly
below it (the exact five offsets of `StepOnce`). -/
def goalAdjacent (dest l : Vec3) : Bool :=
  decide (l = dest + ⟨0, 0, 1⟩ ∨ l = dest + ⟨1, 0, 0⟩ ∨ l = dest + ⟨-1, 0, 0⟩ ∨
          l = dest + ⟨0, 0, -1⟩ ∨ l = dest + ⟨0, -1, 0⟩)

/-- The reconstruction do-while loop of `StepOnce`: push the current
location onto `m_PathPoints` and follow `m_Parent` until null. `wfuel`
bounds the walk (parent chains are finite in every reachable state; a
run that would not terminate yields `none`). -/
def walkParents (s : PathState) (wfuel : Nat) (l : Vec3) : Option PathState :=
  match wfuel with
  | 0 => none
  | n + 1 =>
    let s1 : PathState := { s with pathPoints := s.pathPoints ++ [l] }
    match mlookup s1.map l with
    | none => none
    | some c =>
      match c.parent with
      | none => some s1
      | some p => walkParents s1 n p

/-- `cPath::StepOnce`. Returns `(finished, state)`: `true` exactly when
the C++ returns `true` (no more calculation needed). The ghost
`stepsExecuted` counts the invocation. -/
def stepOnce (w : World) (fuel wfuel : Nat) (s0 : PathState) :
    Option (Bool × PathState) :=
  let s : PathState := { s0 with stepsExecuted := s0.stepsExecuted + 1 }
  match openListPop s with
  | none => some (true, finishCalculationWith .PATH_NOT_FOUND s)
  | some (s1, cur) =>
    if goalAdjacent s1.destination cur then
      match walkParents s1 wfuel cur with
      | none => none
      | some s2 => some (true, finishCalculationWith .PATH_FOUND s2)
    else
      match processOffsets w fuel cur orthoOffsets s1 with
      | none => none
      | some sA =>
        match diagStep w fuel cur (-1) (-1) sA with
        | none => none
        | some sB =>
          match diagStep w fuel cur (-1) 1 sB with
          | none => none
          | some sC =>
            match diagStep w fuel cur 1 (-1) sC with
            | none => none
            | some sD =>
              match diagStep w fuel cur 1 1 sD with
              | none => none
              | some sE => some (false, sE)

/-- The loop of `cPath::Step`:
`for (Step = 1; Step != CALCULATIONS_PER_STEP * m_StepsLeft; ++Step)`
with `CALCULATIONS_PER_STEP = 5`; when the bound is hit the search is
force-finalized `PATH_NOT_FOUND`. `lfuel` bounds the iteration count of
the model only (the C++ loop counter is an `int`; a run that exceeds the
fuel yields `none`). The ghost `budgetFinalized` records hitting the
bound. -/
def stepLoop (w : World) (fuel wfuel : Nat) (cap : Int) :
    Nat → Int → PathState → Option PathState
  | 0, _, _ => none
  | n + 1, i, s =>
    if i = cap then
      some (finishCalculationWith .PATH_NOT_FOUND { s with budgetFinalized := true })
    else
      match stepOnce w fuel wfuel s with
      | none => none
      | some (true, s1) => some s1
      | some (false, s1) => stepLoop w fuel wfuel cap n (i + 1) s1

/-- `cPath::Step`: run the loop with bound `5 * m_StepsLeft`, counter
starting at 1. -/
def cPathStep (w : World) (fuel wfuel lfuel : Nat) (s : PathState) : Option PathState :=
  stepLoop w fuel wfuel (5 * s.stepsLeft) lfuel 1 s

/-- The state of a freshly constructed `cPath` before any cell is
resolved (empty map and open list, empty ghost logs; `m_Status` is
assigned before it is ever read, its placeholder here is never
observed). -/
def initialState (start dest : Vec3) : PathState :=
  { map := [], oracle := [], openList := [], status := .CALCULATING,
    pathPoints := [], destination := dest, source := start, stepsLeft := 0,
    stepsExecuted := 0, budgetFinalized := false, relaxLog := [],
    considerLog := [], poppedLog := [] }

/-- `cPath::cPath` (`Floor()` is the identity on the integer inputs;
the bounding-box and max-up/down parameters are accepted by the C++
constructor but never read by the algorithm and are omitted): resolve
the source cell; if solid, the search is `PATH_NOT_FOUND` before
anything else runs (short-circuit of the `||`); otherwise resolve the
destination cell likewise; otherwise set `CALCULATING`, store the step
budget, and seed the open list by calling `ProcessCell` on the start
cell with a null caller and `gDelta = 0`. -/
def cPathInit (w : World) (fuel : Nat) (start dest : Vec3) (maxSteps : Int) :
    Option PathState :=
  match getCell w fuel (initialState start dest) start with
  | none => none
  | some (s1, cs) =>
    if cs.isSolid then some { s1 with status := .PATH_NOT_FOUND }
    else
      match getCell w fuel s1 dest with
      | none => none
      | some (s2, cd) =>
        if cd.isSolid then some { s2 with status := .PATH_NOT_FOUND }
        else
          processCell { s2 with status := .CALCULATING, stepsLeft := maxSteps } start none 0

/-- A full search: the constructor followed by the `Step` computation it
schedules (scheduled only when the constructor left the search
`CALCULATING`, as in the source). -/
def runSearch (w : World) (fuel wfuel lfuel : Nat) (start dest : Vec3)
    (maxSteps : Int) : Option PathState :=
  match cPathInit w fuel start dest maxSteps with
  | none => none
  | some s =>
    if s.status = .CALCULATING then cPathStep w fuel wfuel lfuel s else some s

/-- A block that is none of the special kinds and not solid (air). -/
def airBlock : Block := ⟨.plain, false⟩

/-- A plain solid block (stone). -/
def stoneBlock : Block := ⟨.plain, true⟩

/-- `E_BLOCK_FENCE`; fences are solid for `cBlockInfo::IsSolid`. -/
def fenceBlock : Block := ⟨.fence, true⟩

/-- `E_BLOCK_STATIONARY_WATER`; not solid for `cBlockInfo::IsSolid`. -/
def waterBlock : Block := ⟨.stationaryWater, false⟩

/-- A fully loaded flat world: solid floor at `y = -1`, air elsewhere. -/
def flatWorld : World := fun l => some (if l.y = -1 then stoneBlock else airBlock)

/-- A world with no loaded chunks at all. -/
def nullWorld : World := fun _ => none

/-- A fully loaded world of air. -/
def voidWorld : World := fun _ => some airBlock

/-- A fully loaded world of air except one stone block at `(3,0,0)`. -/
def voidStoneWorld : World :=
  fun l => some (if l = ⟨3, 0, 0⟩ then stoneBlock else airBlock)

/-- A fully loaded world with a fence at the origin and stationary water
directly above it, over a stone floor at `y = -1`. -/
def fenceWaterWorld : World := fun l =>
  some (if l = ⟨0, 0, 0⟩ then fenceBlock
        else if l = ⟨0, 1, 0⟩ then waterBlock
        else if l.y = -1 then stoneBlock else airBlock)

/-! ## Basic lemmas about the map operations -/

theorem mlookup_mupdate (m : List (Vec3 × PathCell)) (l : Vec3) (fn : PathCell → PathCell)
    (x : Vec3) :
    mlookup (mupdate m l fn) x = if x = l then (mlookup m x).map fn else mlookup m x := by
  induction m with
  | nil => simp [mlookup, mupdate]
  | cons kc rest ih =>
    by_cases hxl : x = l
    · subst hxl
      by_cases hk : kc.1 = x
      · simp [mlookup, mupdate, hk]
      · simp [mlookup, mupdate, hk] at ih ⊢
        exact ih
    · by_cases hk : kc.1 = x
      · have hkl : ¬ kc.1 = l := fun hh => hxl (hk ▸ hh)
        simp [mlookup, mupdate, hk, hkl, hxl]
      · by_cases hkl : kc.1 = l
        · have hlx : ¬ l = x := fun hh => hk (hkl.trans hh)
          simp [mlookup, mupdate, hk, hkl, hxl, hlx] at ih ⊢
          exact ih
        · simp [mlookup, mupdate, hk, hkl, hxl] at ih ⊢
          exact ih

theorem mkeys_mupdate (m : List (Vec3 × PathCell)) (l : Vec3) (fn : PathCell → PathCell) :
    mkeys (mupdate m l fn) = mkeys m := by
  induction m with
  | nil => rfl
  | cons kc rest ih =>
    by_cases h1 : kc.1 = l <;> simp [mkeys, mupdate, h1] <;>
      simpa [mkeys, mupdate] using ih

theorem mlookup_eq_none_iff (m : List (Vec3 × PathCell)) (l : Vec3) :
    mlookup m l = none ↔ l ∉ mkeys m := by
  induction m with
  | nil => simp [mlookup, mkeys]
  | cons kc rest ih =>
    by_cases h1 : kc.1 = l
    · simp [mlookup, mkeys, h1]
    · have h2 : ¬ l = kc.1 := fun hh => h1 hh.symm
      simp [mlookup, mkeys, h1, h2, ih]

theorem mlookup_isSome_iff (m : List (Vec3 × PathCell)) (l : Vec3) :
    (mlookup m l).isSome = true ↔ l ∈ mkeys m := by
  rw [← Decidable.not_iff_not, ← mlookup_eq_none_iff]
  cases mlookup m l <;> simp

/-! ## Frame lemmas: which state fields each operation can touch

`CacheFrame s t` says `t` agrees with `s` on every field other than the
cell map and the ghost oracle log: resolving cells through
`GetCell`/`IsSolid` touches nothing else of the search state. -/

def CacheFrame (s t : PathState) : Prop :=
  t.openList = s.openList ∧ t.status = s.status ∧ t.pathPoints = s.pathPoints ∧
  t.destination = s.destination ∧ t.source = s.source ∧ t.stepsLeft = s.stepsLeft ∧
  t.stepsExecuted = s.stepsExecuted ∧ t.budgetFinalized = s.budgetFinalized ∧
  t.relaxLog = s.relaxLog ∧ t.considerLog = s.considerLog ∧ t.poppedLog = s.poppedLog

theorem cacheFrame_refl (s : PathState) : CacheFrame s s :=
  ⟨rfl, rfl, rfl, rfl, rfl, rfl, rfl, rfl, rfl, rfl, rfl⟩

theorem cacheFrame_trans {s t u : PathState} (h1 : CacheFrame s t) (h2 : CacheFrame t u) :
    CacheFrame s u := by
  obtain ⟨a1, a2, a3, a4, a5, a6, a7, a8, a9, a10, a11⟩ := h1
  obtain ⟨b1, b2, b3, b4, b5, b6, b7, b8, b9, b10, b11⟩ := h2
  exact ⟨b1.trans a1, b2.trans a2, b3.trans a3, b4.trans a4, b5.trans a5, b6.trans a6,
         b7.trans a7, b8.trans a8, b9.trans a9, b10.trans a10, b11.trans a11⟩

theorem cacheFrame_update (s : PathState) (m : List (Vec3 × PathCell)) (o : List Vec3) :
    CacheFrame s { s with map := m, oracle := o } :=
  ⟨rfl, rfl, rfl, rfl, rfl, rfl, rfl, rfl, rfl, rfl, rfl⟩

theorem getCellF_frame (isRec : PathState → Vec3 → Option (PathState × Bool))
    (hrec : ∀ s l t b, isRec s l = some (t, b) → CacheFrame s t)
    (s : PathState) (l : Vec3) (t : PathState) (c : PathCell)
    (h : getCellF isRec s l = some (t, c)) : CacheFrame s t := by
  simp only [getCellF] at h
  split at h
  · cases h
    exact cacheFrame_refl s
  · split at h
    · exact absurd h (by simp)
    · next s2 b heq =>
      split at h
      · cases h
        exact cacheFrame_trans (cacheFrame_trans (cacheFrame_update s _ _) (hrec _ _ _ _ heq))
          (cacheFrame_update s2 _ _)
      · exact absurd h (by simp)

theorem isSolidF_frame (w : World)
    (gcRec : PathState → Vec3 → Option (PathState × PathCell))
    (hrec : ∀ s l t c, gcRec s l = some (t, c) → CacheFrame s t)
    (s : PathState) (l : Vec3) (t : PathState) (b : Bool)
    (h : isSolidF w gcRec s l = some (t, b)) : CacheFrame s t := by
  simp only [isSolidF] at h
  have base : CacheFrame s { s with oracle := s.oracle ++ [l] } := cacheFrame_update s _ _
  split at h
  · cases h
    exact base
  · next blk heqw =>
    split at h
    · exact absurd h (by simp)
    · next sB heqF =>
      have hFence : CacheFrame { s with oracle := s.oracle ++ [l] } sB := by
        split at heqF
        · split at heqF
          · exact absurd heqF (by simp)
          · next sA cA heqg =>
            cases heqF
            exact cacheFrame_trans (hrec _ _ _ _ heqg) (cacheFrame_update sA _ _)
        · cases heqF
          exact cacheFrame_refl _
      split at h
      · exact absurd h (by simp)
      · next sD heqW =>
        have hWater : CacheFrame sB sD := by
          split at heqW
          · split at heqW
            · exact absurd heqW (by simp)
            · next sC cC heqg =>
              cases heqW
              exact cacheFrame_trans (hrec _ _ _ _ heqg) (cacheFrame_update sC _ _)
          · cases heqW
            exact cacheFrame_refl _
        cases h
        exact cacheFrame_trans (cacheFrame_trans base hFence) hWater

theorem cache_frame (w : World) (fuel : Nat) :
    (∀ s l t c, getCell w fuel s l = some (t, c) → CacheFrame s t) ∧
    (∀ s l t b, isSolid w fuel s l = some (t, b) → CacheFrame s t) := by
  induction fuel with
  | zero =>
    constructor
    · intro s l t c h
      rw [getCell_zero] at h
      cases h
    · intro s l t b h
      rw [isSolid_zero] at h
      cases h
  | succ n ih =>
    constructor
    · intro s l t c h
      rw [getCell_succ] at h
      exact getCellF_frame _ ih.2 s l t c h
    · intro s l t b h
      rw [isSolid_succ] at h
      exact isSolidF_frame w _ ih.1 s l t b h

theorem getCell_frame (w : World) (fuel : Nat) (s : PathState) (l : Vec3)
    (t : PathState) (c : PathCell) (h : getCell w fuel s l = some (t, c)) :
    CacheFrame s t :=
  (cache_frame w fuel).1 s l t c h

/-! ## The cache invariant: one cell and one oracle query per location -/

/-- Ghost count of `cPath::IsSolid` invocations for a location. -/
def oracleCount (s : PathState) (l : Vec3) : Nat :=
  (s.oracle.filter fun x => x = l).length

/-- The cache invariant: the map holds at most one cell per location,
every cached cell records the location it is keyed by, and the oracle
has been consulted exactly once for each cached location and never for
any other location. -/
def InvC (s : PathState) : Prop :=
  (mkeys s.map).Nodup ∧
  (∀ x c, mlookup s.map x = some c → c.loc = x) ∧
  (∀ x, oracleCount s x = if (mlookup s.map x).isSome then 1 else 0)

/-- Every location cached in `s` is still cached in `t`. -/
def KeysMono (s t : PathState) : Prop :=
  ∀ x, (mlookup s.map x).isSome → (mlookup t.map x).isSome

theorem keysMono_refl (s : PathState) : KeysMono s s := fun _ hx => hx

theorem keysMono_trans {s t u : PathState} (h1 : KeysMono s t) (h2 : KeysMono t u) :
    KeysMono s u := fun x hx => h2 x (h1 x hx)

theorem mlookup_mupdate_isSome (m : List (Vec3 × PathCell)) (l : Vec3)
    (fn : PathCell → PathCell) (x : Vec3) :
    (mlookup (mupdate m l fn) x).isSome = (mlookup m x).isSome := by
  rw [mlookup_mupdate]
  by_cases hx : x = l
  · rw [if_pos hx]
    cases mlookup m x <;> simp
  · rw [if_neg hx]

theorem oracleCount_mapOnly (s : PathState) (m : List (Vec3 × PathCell)) (x : Vec3) :
    oracleCount { s with map := m } x = oracleCount s x := rfl

theorem oracleCount_append (s : PathState) (y x : Vec3) :
    oracleCount { s with oracle := s.oracle ++ [y] } x =
      oracleCount s x + if y = x then 1 else 0 := by
  by_cases hy : y = x <;> simp [oracleCount, List.filter_append, hy]

/-- `InvC` is stable under a map update that rewrites a single location
without changing its key field. -/
theorem invC_mupdate (s : PathState) (l : Vec3) (fn : PathCell → PathCell)
    (hfn : ∀ c, (fn c).loc = c.loc) (hInv : InvC s) :
    InvC { s with map := mupdate s.map l fn } := by
  obtain ⟨hnd, hloc, hcnt⟩ := hInv
  refine ⟨by simpa [mkeys_mupdate] using hnd, ?_, ?_⟩
  · intro x c hx
    rw [mlookup_mupdate] at hx
    by_cases hxl : x = l
    · simp [hxl] at hx
      obtain ⟨c0, hc0, hfc⟩ := hx
      rw [← hfc, hfn c0]
      exact hloc x c0 (by simpa [hxl] using hc0)
    · exact hloc x c (by simpa [hxl] using hx)
  · intro x
    rw [oracleCount_mapOnly, mlookup_mupdate_isSome]
    exact hcnt x

/-- The precondition `IsSolid` is invoked under, at the freshly inserted
location `l`: the map is still duplicate-free and location-correct, `l`
is cached, the oracle has never been asked about `l`, and every other
location satisfies the exactly-once accounting. -/
def InvAt (s : PathState) (l : Vec3) : Prop :=
  (mkeys s.map).Nodup ∧
  (∀ x c, mlookup s.map x = some c → c.loc = x) ∧
  (mlookup s.map l).isSome ∧ oracleCount s l = 0 ∧
  (∀ x, x ≠ l → oracleCount s x = if (mlookup s.map x).isSome then 1 else 0)

theorem getCellF_inv (isRec : PathState → Vec3 → Option (PathState × Bool))
    (hrec : ∀ s l t b, InvAt s l → isRec s l = some (t, b) → InvC t ∧ KeysMono s t)
    (s : PathState) (l : Vec3) (t : PathState) (c : PathCell)
    (hInv : InvC s) (h : getCellF isRec s l = some (t, c)) :
    InvC t ∧ c.loc = l ∧ mlookup t.map l = some c ∧ KeysMono s t ∧
      ((mlookup s.map l = some c ∧ t = s) ∨
       (mlookup s.map l = none ∧ oracleCount t l = 1)) := by
  obtain ⟨hnd, hloc, hcnt⟩ := hInv
  simp only [getCellF] at h
  split at h
  · next c0 heq =>
    cases h
    exact ⟨⟨hnd, hloc, hcnt⟩, hloc l _ heq, heq, keysMono_refl _, Or.inl ⟨heq, rfl⟩⟩
  · next heq =>
    have hnotin : l ∉ mkeys s.map := (mlookup_eq_none_iff s.map l).mp heq
    split at h
    · exact absurd h (by simp)
    · next s2 b heqS =>
      -- the state passed to `IsSolid` is `s` with the fresh cell for `l` prepended
      have hAt : InvAt { s with map := (l, ⟨l, 0, 0, 0, .NOLIST, none, false⟩) :: s.map } l := by
        refine ⟨?_, ?_, ?_, ?_, ?_⟩
        · rw [show mkeys ((l, (⟨l, 0, 0, 0, .NOLIST, none, false⟩ : PathCell)) :: s.map) =
              l :: mkeys s.map from rfl]
          exact List.nodup_cons.mpr ⟨hnotin, hnd⟩
        · intro x c0 hx
          by_cases hxl : x = l
          · simp [mlookup, hxl] at hx
            simp [← hx, hxl]
          · have hlx : ¬ l = x := fun hh => hxl hh.symm
            exact hloc x c0 (by simpa [mlookup, hlx] using hx)
        · simp [mlookup]
        · simpa [oracleCount_mapOnly, heq] using hcnt l
        · intro x hxl
          have hlx : ¬ l = x := fun hh => hxl hh.symm
          simpa [oracleCount_mapOnly, mlookup, hlx] using hcnt x
      obtain ⟨hInv2, hMono2⟩ := hrec _ _ _ _ hAt heqS
      obtain ⟨hnd2, hloc2, hcnt2⟩ := hInv2
      have hsome2 : (mlookup s2.map l).isSome := hMono2 l (by simp [mlookup])
      obtain ⟨c2, hc2⟩ := Option.isSome_iff_exists.mp hsome2
      split at h
      · next c3 heq3 =>
        rw [Option.some_inj, Prod.mk.injEq] at h
        obtain ⟨ht, hc⟩ := h
        subst ht
        subst hc
        have hfc : ({ c2 with isSolid := b, status := .NOLIST } : PathCell) = c3 := by
          rw [mlookup_mupdate] at heq3
          simpa [hc2] using heq3
        refine ⟨invC_mupdate s2 l _ (fun c0 => rfl) ⟨hnd2, hloc2, hcnt2⟩, ?_, heq3,
          ?_, Or.inr ⟨heq, ?_⟩⟩
        · rw [← hfc]
          simpa using hloc2 l c2 hc2
        · intro x hx
          have hx1 : (mlookup s2.map x).isSome := by
            refine hMono2 x ?_
            by_cases hlx : l = x
            · simp [mlookup, hlx]
            · simpa [mlookup, hlx] using hx
          simpa [mlookup_mupdate_isSome] using hx1
        · have hcl := hcnt2 l
          rw [hsome2] at hcl
          simpa [oracleCount_mapOnly] using hcl
      · next heq3 =>
        rw [mlookup_mupdate] at heq3
        simp [hc2] at heq3

theorem isSolidF_inv (w : World)
    (gcRec : PathState → Vec3 → Option (PathState × PathCell))
    (hrec : ∀ s l t c, InvC s → gcRec s l = some (t, c) → InvC t ∧ KeysMono s t)
    (s : PathState) (l : Vec3) (t : PathState) (b : Bool)
    (hAt : InvAt s l) (h : isSolidF w gcRec s l = some (t, b)) :
    InvC t ∧ KeysMono s t := by
  obtain ⟨hnd, hloc, hsome, hzero, hcnt⟩ := hAt
  simp only [isSolidF] at h
  -- logging the oracle invocation restores the full invariant
  have hInv0 : InvC { s with oracle := s.oracle ++ [l] } := by
    refine ⟨hnd, hloc, ?_⟩
    intro x
    rw [oracleCount_append]
    by_cases hxl : x = l
    · simp [hxl, hsome] at *
      simpa [hxl] using hzero
    · have hlx : ¬ l = x := fun hh => hxl hh.symm
      simpa [hlx] using hcnt x hxl
  have hMono0 : KeysMono s { s with oracle := s.oracle ++ [l] } := fun x hx => hx
  split at h
  · cases h
    exact ⟨hInv0, hMono0⟩
  · next blk heqw =>
    split at h
    · exact absurd h (by simp)
    · next sB heqF =>
      have hFence : InvC sB ∧ KeysMono { s with oracle := s.oracle ++ [l] } sB := by
        split at heqF
        · split at heqF
          · exact absurd heqF (by simp)
          · next sA cA heqg =>
            cases heqF
            obtain ⟨hA, hMA⟩ := hrec _ _ _ _ hInv0 heqg
            refine ⟨invC_mupdate sA _ _ (fun c0 => rfl) hA, ?_⟩
            refine keysMono_trans hMA ?_
            intro x hx
            simpa [mlookup_mupdate_isSome] using hx
        · cases heqF
          exact ⟨hInv0, keysMono_refl _⟩
      split at h
      · exact absurd h (by simp)
      · next sD heqW =>
        have hWater : InvC sD ∧ KeysMono sB sD := by
          split at heqW
          · split at heqW
            · exact absurd heqW (by simp)
            · next sC cC heqg =>
              cases heqW
              obtain ⟨hC, hMC⟩ := hrec _ _ _ _ hFence.1 heqg
              refine ⟨invC_mupdate sC _ _ (fun c0 => rfl) hC, ?_⟩
              refine keysMono_trans hMC ?_
              intro x hx
              simpa [mlookup_mupdate_isSome] using hx
          · cases heqW
            exact ⟨hFence.1, keysMono_refl _⟩
        cases h
        exact ⟨hWater.1, keysMono_trans hMono0 (keysMono_trans hFence.2 hWater.2)⟩

/-- The fueled cache invariant, proved for `GetCell` and `IsSolid`
simultaneously by induction on the fuel. -/
theorem cache_inv (w : World) (fuel : Nat) :
    (∀ s l t c, InvC s → getCell w fuel s l = some (t, c) →
      InvC t ∧ c.loc = l ∧ mlookup t.map l = some c ∧ KeysMono s t ∧
        ((mlookup s.map l = some c ∧ t = s) ∨
         (mlookup s.map l = none ∧ oracleCount t l = 1))) ∧
    (∀ s l t b, InvAt s l → isSolid w fuel s l = some (t, b) → InvC t ∧ KeysMono s t) := by
  induction fuel with
  | zero =>
    constructor
    · intro s l t c _ h
      rw [getCell_zero] at h
      cases h
    · intro s l t b _ h
      rw [isSolid_zero] at h
      cases h
  | succ n ih =>
    constructor
    · intro s l t c hInv h
      rw [getCell_succ] at h
      exact getCellF_inv _ ih.2 s l t c hInv h
    · intro s l t b hAt h
      rw [isSolid_succ] at h
      refine isSolidF_inv w _ ?_ s l t b hAt h
      intro s0 l0 t0 c0 hInv0 h0
      have := ih.1 s0 l0 t0 c0 hInv0 h0
      exact ⟨this.1, this.2.2.2.1⟩

/-! ## Frames for the expansion phase and the step/loop specifications -/

/-- `ExpFrame s t`: `t` agrees with `s` on every field the expansion of
one cell never touches (status, path points, endpoints, budget and the
ghost step accounting). -/
def ExpFrame (s t : PathState) : Prop :=
  t.status = s.status ∧ t.pathPoints = s.pathPoints ∧ t.destination = s.destination ∧
  t.source = s.source ∧ t.stepsLeft = s.stepsLeft ∧ t.stepsExecuted = s.stepsExecuted ∧
  t.budgetFinalized = s.budgetFinalized ∧ t.poppedLog = s.poppedLog

theorem expFrame_refl (s : PathState) : ExpFrame s s :=
  ⟨rfl, rfl, rfl, rfl, rfl, rfl, rfl, rfl⟩

theorem expFrame_trans {s t u : PathState} (h1 : ExpFrame s t) (h2 : ExpFrame t u) :
    ExpFrame s u := by
  obtain ⟨a1, a2, a3, a4, a5, a6, a7, a8⟩ := h1
  obtain ⟨b1, b2, b3, b4, b5, b6, b7, b8⟩ := h2
  exact ⟨b1.trans a1, b2.trans a2, b3.trans a3, b4.trans a4, b5.trans a5, b6.trans a6,
         b7.trans a7, b8.trans a8⟩

theorem cacheFrame_toExp {s t : PathState} (h : CacheFrame s t) : ExpFrame s t := by
  obtain ⟨a1, a2, a3, a4, a5, a6, a7, a8, a9, a10, a11⟩ := h
  exact ⟨a2, a3, a4, a5, a6, a7, a8, a11⟩

theorem expFrame_update (s : PathState) (m : List (Vec3 × PathCell)) (o : List Vec3)
    (ol : List Vec3) (rl : List (Vec3 × Option Vec3 × Int))
    (cl : List (Vec3 × Vec3 × Int)) :
    ExpFrame s { s with map := m, oracle := o, openList := ol, relaxLog := rl,
                        considerLog := cl } :=
  ⟨rfl, rfl, rfl, rfl, rfl, rfl, rfl, rfl⟩

theorem processCell_frame (s : PathState) (cellLoc : Vec3) (caller : Option Vec3)
    (gDelta : Int) (t : PathState) (h : processCell s cellLoc caller gDelta = some t) :
    ExpFrame s t := by
  simp only [processCell] at h
  split at h
  · exact absurd h (by simp)
  · split at h
    · cases h
      exact expFrame_update ..
    · split at h
      · split at h
        · exact absurd h (by simp)
        · cases h
          exact expFrame_update ..
      · split at h
        · exact absurd h (by simp)
        · split at h
          · exact absurd h (by simp)
          · split at h
            · cases h
              exact expFrame_update ..
            · cases h
              exact expFrame_update ..

theorem processIfWalkable_frame (w : World) (fuel : Nat) (s : PathState) (l parent : Vec3)
    (cost : Int) (t : PathState) (h : processIfWalkable w fuel s l parent cost = some t) :
    ExpFrame s t := by
  simp only [processIfWalkable] at h
  have h0 : ExpFrame s (addConsider s l parent cost) := expFrame_update ..
  split at h
  · exact absurd h (by simp)
  · next s1 c1 heq1 =>
    have e1 : ExpFrame s s1 :=
      expFrame_trans h0 (cacheFrame_toExp (getCell_frame w fuel _ _ _ _ heq1))
    split at h
    · cases h
      exact e1
    · split at h
      · exact absurd h (by simp)
      · next s2 c2 heq2 =>
        have e2 : ExpFrame s s2 :=
          expFrame_trans e1 (cacheFrame_toExp (getCell_frame w fuel _ _ _ _ heq2))
        split at h
        · split at h
          · exact absurd h (by simp)
          · next s3 c3 heq3 =>
            have e3 : ExpFrame s s3 :=
              expFrame_trans e2 (cacheFrame_toExp (getCell_frame w fuel _ _ _ _ heq3))
            split at h
            · cases h
              exact e3
            · exact expFrame_trans e3 (processCell_frame _ _ _ _ _ h)
        · cases h
          exact e2

theorem diagStep_frame (w : World) (fuel : Nat) (cur : Vec3) (x z : Int) (s t : PathState)
    (h : diagStep w fuel cur x z s = some t) : ExpFrame s t := by
  simp only [diagStep] at h
  split at h
  · exact absurd h (by simp)
  · next s1 c1 heq1 =>
    have e1 : ExpFrame s s1 := cacheFrame_toExp (getCell_frame w fuel _ _ _ _ heq1)
    split at h
    · cases h
      exact e1
    · split at h
      · exact absurd h (by simp)
      · next s2 c2 heq2 =>
        have e2 : ExpFrame s s2 :=
          expFrame_trans e1 (cacheFrame_toExp (getCell_frame w fuel _ _ _ _ heq2))
        split at h
        · cases h
          exact e2
        · split at h
          · exact absurd h (by simp)
          · next s3 c3 heq3 =>
            have e3 : ExpFrame s s3 :=
              expFrame_trans e2 (cacheFrame_toExp (getCell_frame w fuel _ _ _ _ heq3))
            split at h
            · split at h
              · exact absurd h (by simp)
              · next s4 c4 heq4 =>
                have e4 : ExpFrame s s4 :=
                  expFrame_trans e3 (cacheFrame_toExp (getCell_frame w fuel _ _ _ _ heq4))
                split at h
                · exact expFrame_trans e4 (processIfWalkable_frame w fuel _ _ _ _ _ h)
                · cases h
                  exact e4
            · cases h
              exact e3

theorem processOffsets_frame (w : World) (fuel : Nat) (cur : Vec3) :
    ∀ (offs : List Vec3) (s t : PathState),
      processOffsets w fuel cur offs s = some t → ExpFrame s t := by
  intro offs
  induction offs with
  | nil =>
    intro s t h
    cases h
    exact expFrame_refl _
  | cons off rest ih =>
    intro s t h
    simp only [processOffsets] at h
    split at h
    · exact absurd h (by simp)
    · next s1 heq =>
      exact expFrame_trans (processIfWalkable_frame w fuel _ _ _ _ _ heq) (ih s1 t h)

theorem walkParents_frame (wfuel : Nat) :
    ∀ (s : PathState) (l : Vec3) (t : PathState), walkParents s wfuel l = some t →
      t.status = s.status ∧ t.stepsExecuted = s.stepsExecuted ∧
      t.budgetFinalized = s.budgetFinalized ∧ t.stepsLeft = s.stepsLeft ∧
      t.poppedLog = s.poppedLog := by
  induction wfuel with
  | zero =>
    intro s l t h
    simp only [walkParents] at h
    cases h
  | succ n ih =>
    intro s l t h
    simp only [walkParents] at h
    split at h
    · exact absurd h (by simp)
    · next c heq =>
      split at h
      · cases h
        exact ⟨rfl, rfl, rfl, rfl, rfl⟩
      · next p heqp =>
        obtain ⟨b1, b2, b3, b4, b5⟩ := ih _ p t h
        exact ⟨b1, b2, b3, b4, b5⟩

theorem openListPop_frame (s t : PathState) (cur : Vec3) (h : openListPop s = some (t, cur)) :
    t.status = s.status ∧ t.pathPoints = s.pathPoints ∧ t.destination = s.destination ∧
    t.stepsExecuted = s.stepsExecuted ∧ t.budgetFinalized = s.budgetFinalized ∧
    t.stepsLeft = s.stepsLeft := by
  simp only [openListPop] at h
  split at h
  · exact absurd h (by simp)
  · cases h
    exact ⟨rfl, rfl, rfl, rfl, rfl, rfl⟩

theorem finishCalculationWith_fields (st : PathStatus) (s : PathState) :
    (finishCalculationWith st s).status = st ∧
    (finishCalculationWith st s).pathPoints = s.pathPoints ∧
    (finishCalculationWith st s).stepsExecuted = s.stepsExecuted ∧
    (finishCalculationWith st s).budgetFinalized = s.budgetFinalized ∧
    (finishCalculationWith st s).stepsLeft = s.stepsLeft :=
  ⟨rfl, rfl, rfl, rfl, rfl⟩

/-- What one `StepOnce` invocation does to the bookkeeping fields:
the ghost step counter advances by exactly one; the budget flag and the
remaining budget are untouched; a `true` return means the status is now
terminal; a `false` return leaves status and path points untouched; and
the path points change only when the status became `PATH_FOUND`. -/
theorem stepOnce_spec (w : World) (fuel wfuel : Nat) (s : PathState) (b : Bool)
    (t : PathState) (h : stepOnce w fuel wfuel s = some (b, t)) :
    t.stepsExecuted = s.stepsExecuted + 1 ∧ t.budgetFinalized = s.budgetFinalized ∧
    t.stepsLeft = s.stepsLeft ∧
    (b = true → t.status = .PATH_FOUND ∨ t.status = .PATH_NOT_FOUND) ∧
    (b = false → t.status = s.status ∧ t.pathPoints = s.pathPoints) ∧
    (t.status ≠ .PATH_FOUND → t.pathPoints = s.pathPoints) := by
  simp only [stepOnce] at h
  split at h
  · next heq =>
    cases h
    refine ⟨rfl, rfl, rfl, fun _ => Or.inr rfl, fun hb => (by cases hb), fun _ => rfl⟩
  · next s1 cur heq =>
    obtain ⟨p1, p2, p3, p4, p5, p6⟩ :=
      openListPop_frame { s with stepsExecuted := s.stepsExecuted + 1 } s1 cur heq
    split at h
    · split at h
      · exact absurd h (by simp)
      · next s2 heqw =>
        obtain ⟨w1, w2, w3, w4, w5⟩ := walkParents_frame wfuel s1 cur s2 heqw
        cases h
        refine ⟨?_, ?_, ?_, fun _ => Or.inl rfl, fun hb => (by cases hb),
                fun hne => absurd rfl hne⟩
        · show s2.stepsExecuted = s.stepsExecuted + 1
          rw [w2, p4]
        · show s2.budgetFinalized = s.budgetFinalized
          rw [w3, p5]
        · show s2.stepsLeft = s.stepsLeft
          rw [w4, p6]
    · -- expansion: the twelve orthogonal candidates then the four diagonals
      split at h
      · exact absurd h (by simp)
      · next sA heqA =>
        have eA : ExpFrame s1 sA := processOffsets_frame w fuel cur orthoOffsets s1 sA heqA
        split at h
        · exact absurd h (by simp)
        · next sB heqB =>
          have eB : ExpFrame s1 sB := expFrame_trans eA (diagStep_frame w fuel cur _ _ _ _ heqB)
          split at h
          · exact absurd h (by simp)
          · next sC heqC =>
            have eC : ExpFrame s1 sC :=
              expFrame_trans eB (diagStep_frame w fuel cur _ _ _ _ heqC)
            split at h
            · exact absurd h (by simp)
            · next sD heqD =>
              have eD : ExpFrame s1 sD :=
                expFrame_trans eC (diagStep_frame w fuel cur _ _ _ _ heqD)
              split at h
              · exact absurd h (by simp)
              · next sE heqE =>
                have eE : ExpFrame s1 sE :=
                  expFrame_trans eD (diagStep_frame w fuel cur _ _ _ _ heqE)
                cases h
                obtain ⟨f1, f2, f3, f4, f5, f6, f7, f8⟩ := eE
                refine ⟨by rw [f6, p4], by rw [f7, p5], by rw [f5, p6],
                        fun hb => (by cases hb), fun _ => ⟨by rw [f1, p1], by rw [f2, p2]⟩,
                        fun _ => by rw [f2, p2]⟩

/-- The `cPath::Step` loop always leaves the search in a terminal state,
never fabricates path points for a failed search, and reports
`PATH_NOT_FOUND` whenever it was the step cap that ended the loop. -/
theorem stepLoop_post (w : World) (fuel wfuel : Nat) (cap : Int) :
    ∀ (n : Nat) (i : Int) (s t : PathState),
      stepLoop w fuel wfuel cap n i s = some t →
      (t.status = .PATH_FOUND ∨ t.status = .PATH_NOT_FOUND) ∧
      t.stepsLeft = s.stepsLeft ∧
      (t.status ≠ .PATH_FOUND → t.pathPoints = s.pathPoints) ∧
      (s.budgetFinalized = false → t.budgetFinalized = true → t.status = .PATH_NOT_FOUND) := by
  intro n
  induction n with
  | zero =>
    intro i s t h
    simp only [stepLoop] at h
    cases h
  | succ m ih =>
    intro i s t h
    simp only [stepLoop] at h
    split at h
    · cases h
      exact ⟨Or.inr rfl, rfl, fun _ => rfl, fun _ _ => rfl⟩
    · split at h
      · exact absurd h (by simp)
      · next s1 heq =>
        obtain ⟨q1, q2, q3, q4, q5, q6⟩ := stepOnce_spec w fuel wfuel s true s1 heq
        cases h
        refine ⟨q4 rfl, q3, q6, ?_⟩
        intro hbf htrue
        rw [q2, hbf] at htrue
        cases htrue
      · next s1 heq =>
        obtain ⟨q1, q2, q3, q4, q5, q6⟩ := stepOnce_spec w fuel wfuel s false s1 heq
        obtain ⟨r1, r2, r3, r4⟩ := ih (i + 1) s1 t h
        refine ⟨r1, r2.trans q3, ?_, ?_⟩
        · intro hne
          rw [r3 hne, (q5 rfl).2]
        · intro hbf htrue
          exact r4 (q2.trans hbf) htrue

/-- Step-count bound of the `cPath::Step` loop while the counter is
between 1 and the cap: at most `cap - i` further `StepOnce` calls run. -/
theorem stepLoop_le (w : World) (fuel wfuel : Nat) (cap : Int) :
    ∀ (n : Nat) (i : Int) (s t : PathState), 1 ≤ i → i ≤ cap →
      stepLoop w fuel wfuel cap n i s = some t →
      t.stepsExecuted ≤ s.stepsExecuted + (cap - i).toNat := by
  intro n
  induction n with
  | zero =>
    intro i s t _ _ h
    simp only [stepLoop] at h
    cases h
  | succ m ih =>
    intro i s t h1 h2 h
    simp only [stepLoop] at h
    split at h
    · next hi =>
      cases h
      simp [finishCalculationWith, finishCalculation]
    · next hi =>
      have hlt : i < cap := lt_of_le_of_ne h2 hi
      split at h
      · exact absurd h (by simp)
      · next s1 heq =>
        obtain ⟨q1, _, _, _, _, _⟩ := stepOnce_spec w fuel wfuel s true s1 heq
        cases h
        omega
      · next s1 heq =>
        obtain ⟨q1, _, _, _, _, _⟩ := stepOnce_spec w fuel wfuel s false s1 heq
        have hrec := ih (i + 1) s1 t (by omega) (by omega) h
        omega

/-- When the loop counter starts above the cap (as it does for
`m_StepsLeft = 0`, where the cap `5 * 0 = 0` is below the initial
counter 1), the loop never takes the budget exit: at least one
`StepOnce` runs, and if the loop returns, it was `StepOnce` that ended
the search. -/
theorem stepLoop_nocap (w : World) (fuel wfuel : Nat) (cap : Int) :
    ∀ (n : Nat) (i : Int) (s t : PathState), cap < i →
      stepLoop w fuel wfuel cap n i s = some t →
      t.budgetFinalized = s.budgetFinalized ∧ s.stepsExecuted + 1 ≤ t.stepsExecuted := by
  intro n
  induction n with
  | zero =>
    intro i s t _ h
    simp only [stepLoop] at h
    cases h
  | succ m ih =>
    intro i s t hlt h
    simp only [stepLoop] at h
    split at h
    · next hi =>
      exact absurd hi (by omega)
    · next hi =>
      split at h
      · exact absurd h (by simp)
      · next s1 heq =>
        obtain ⟨q1, q2, _, _, _, _⟩ := stepOnce_spec w fuel wfuel s true s1 heq
        cases h
        exact ⟨q2, by omega⟩
      · next s1 heq =>
        obtain ⟨q1, q2, _, _, _, _⟩ := stepOnce_spec w fuel wfuel s false s1 heq
        obtain ⟨r1, r2⟩ := ih (i + 1) s1 t (by omega) h
        exact ⟨r1.trans q2, by omega⟩

/-! ## Status bookkeeping of the cell cache

Resolving cells can create new cells (status `NOLIST`) and can force
`m_IsSolid` of existing cells, but it never changes the open/closed
status of an existing cell. -/

/-- Every cell of `t` either kept the status it had in `s` or is
(newly created or rewritten) with status `NOLIST`. -/
def StatusFrame (s t : PathState) : Prop :=
  ∀ x, (mlookup t.map x).map PathCell.status = (mlookup s.map x).map PathCell.status ∨
       (mlookup t.map x).map PathCell.status = some .NOLIST

theorem statusFrame_refl (s : PathState) : StatusFrame s s := fun _ => Or.inl rfl

theorem statusFrame_trans {s t u : PathState} (h1 : StatusFrame s t) (h2 : StatusFrame t u) :
    StatusFrame s u := by
  intro x
  rcases h2 x with h2x | h2x
  · rcases h1 x with h1x | h1x
    · exact Or.inl (h2x.trans h1x)
    · exact Or.inr (h2x.trans h1x)
  · exact Or.inr h2x

theorem statusFrame_mapOnly (s : PathState) (o : List Vec3) :
    StatusFrame s { s with oracle := o } := fun _ => Or.inl rfl

/-- A map update that does not write the status field respects the
status frame. -/
theorem statusFrame_mupdate (s : PathState) (l : Vec3) (fn : PathCell → PathCell)
    (hfn : ∀ c, (fn c).status = c.status) :
    StatusFrame s { s with map := mupdate s.map l fn } := by
  intro x
  left
  show (mlookup (mupdate s.map l fn) x).map PathCell.status = _
  rw [mlookup_mupdate]
  by_cases hx : x = l
  · rw [if_pos hx]
    cases mlookup s.map x <;> simp [hfn]
  · rw [if_neg hx]

/-- A map update that rewrites one location to status `NOLIST` respects
the status frame. -/
theorem statusFrame_mupdate_nolist (s : PathState) (l : Vec3) (fn : PathCell → PathCell)
    (hfn : ∀ c, (fn c).status = .NOLIST) :
    StatusFrame s { s with map := mupdate s.map l fn } := by
  intro x
  show (mlookup (mupdate s.map l fn) x).map PathCell.status = _ ∨
       (mlookup (mupdate s.map l fn) x).map PathCell.status = _
  rw [mlookup_mupdate]
  by_cases hx : x = l
  · rw [if_pos hx]
    cases mlookup s.map x with
    | none => exact Or.inl rfl
    | some c2 =>
      right
      simp [hfn]
  · rw [if_neg hx]
    exact Or.inl rfl

theorem getCellF_statusFrame (isRec : PathState → Vec3 → Option (PathState × Bool))
    (hrec : ∀ s l t b, isRec s l = some (t, b) → StatusFrame s t)
    (s : PathState) (l : Vec3) (t : PathState) (c : PathCell)
    (h : getCellF isRec s l = some (t, c)) : StatusFrame s t := by
  simp only [getCellF] at h
  split at h
  · cases h
    exact statusFrame_refl _
  · next heq =>
    split at h
    · exact absurd h (by simp)
    · next s2 b heqS =>
      split at h
      · next c3 heq3 =>
        rw [Option.some_inj, Prod.mk.injEq] at h
        obtain ⟨ht, hc⟩ := h
        subst ht
        have hIns : StatusFrame s
            { s with map := (l, (⟨l, 0, 0, 0, .NOLIST, none, false⟩ : PathCell)) :: s.map } := by
          intro x
          by_cases hx : l = x
          · right
            simp [mlookup, hx]
          · left
            simp [mlookup, hx]
        exact statusFrame_trans hIns (statusFrame_trans (hrec _ _ _ _ heqS)
          (statusFrame_mupdate_nolist s2 l _ (fun c0 => rfl)))
      · exact absurd h (by simp)

theorem isSolidF_statusFrame (w : World)
    (gcRec : PathState → Vec3 → Option (PathState × PathCell))
    (hrec : ∀ s l t c, gcRec s l = some (t, c) → StatusFrame s t)
    (s : PathState) (l : Vec3) (t : PathState) (b : Bool)
    (h : isSolidF w gcRec s l = some (t, b)) : StatusFrame s t := by
  simp only [isSolidF] at h
  have base : StatusFrame s { s with oracle := s.oracle ++ [l] } := statusFrame_mapOnly s _
  split at h
  · cases h
    exact base
  · next blk heqw =>
    split at h
    · exact absurd h (by simp)
    · next sB heqF =>
      have hFence : StatusFrame { s with oracle := s.oracle ++ [l] } sB := by
        split at heqF
        · split at heqF
          · exact absurd heqF (by simp)
          · next sA cA heqg =>
            cases heqF
            exact statusFrame_trans (hrec _ _ _ _ heqg)
              (statusFrame_mupdate sA _ _ (fun c0 => rfl))
        · cases heqF
          exact statusFrame_refl _
      split at h
      · exact absurd h (by simp)
      · next sD heqW =>
        have hWater : StatusFrame sB sD := by
          split at heqW
          · split at heqW
            · exact absurd heqW (by simp)
            · next sC cC heqg =>
              cases heqW
              exact statusFrame_trans (hrec _ _ _ _ heqg)
                (statusFrame_mupdate sC _ _ (fun c0 => rfl))
          · cases heqW
            exact statusFrame_refl _
        cases h
        exact statusFrame_trans base (statusFrame_trans hFence hWater)

theorem cache_statusFrame (w : World) (fuel : Nat) :
    (∀ s l t c, getCell w fuel s l = some (t, c) → StatusFrame s t) ∧
    (∀ s l t b, isSolid w fuel s l = some (t, b) → StatusFrame s t) := by
  induction fuel with
  | zero =>
    constructor
    · intro s l t c h
      rw [getCell_zero] at h
      cases h
    · intro s l t b h
      rw [isSolid_zero] at h
      cases h
  | succ n ih =>
    constructor
    · intro s l t c h
      rw [getCell_succ] at h
      exact getCellF_statusFrame _ ih.2 s l t c h
    · intro s l t b h
      rw [isSolid_succ] at h
      exact isSolidF_statusFrame w _ ih.1 s l t b h

/-- The cell update performed when the constructor's seed call admits
the start cell: `parent = null`, `g = 0`, `h` the heuristic to `dest`,
`f = h + g`, status `OPENLIST`. -/
def seedUpdate (dest l : Vec3) (c : PathCell) : PathCell :=
  { c with parent := none, g := 0, h := heuristicH l dest, f := heuristicH l dest + 0, status := .OPENLIST }

/-- `cPath::ProcessCell` on a fresh (`NOLIST`) cell with a null caller:
the seed call of the constructor. `g` is 0, `h` the heuristic, `f = h + g`,
the cell is pushed onto the open list. -/
theorem processCell_seed (s : PathState) (l : Vec3) (cell : PathCell)
    (hl : mlookup s.map l = some cell) (hst : cell.status = .NOLIST) :
    processCell s l none 0 =
      some { s with relaxLog := s.relaxLog ++ [(l, none, 0)], map := mupdate s.map l (seedUpdate s.destination l), openList := s.openList ++ [l] } := by
  simp only [processCell, hl, hst]
  rfl

/-- `cPath::ProcessCell` on a cell currently in the open list (case 3 of
the source): `NewG = caller.m_G + gDelta`; on improvement the source
sets `m_G = NewG`, then `m_H = m_F + m_G`, and the parent, leaving `m_F`
— the priority-queue key — untouched; otherwise nothing changes. Either
way only the ghost relax log grows. -/
theorem processCell_open (s : PathState) (nloc cloc : Vec3) (d : Int) (n c : PathCell)
    (hn : mlookup s.map nloc = some n) (hst : n.status = .OPENLIST)
    (hc : mlookup s.map cloc = some c) :
    processCell s nloc (some cloc) d =
      some (if c.g + d < n.g then
        { s with relaxLog := s.relaxLog ++ [(nloc, some cloc, d)],
                 map := mupdate s.map nloc (fun cc =>
                   { cc with g := c.g + d, h := cc.f + (c.g + d), parent := some cloc }) }
      else
        { s with relaxLog := s.relaxLog ++ [(nloc, some cloc, d)] }) := by
  simp only [processCell, hn, hst, hc]
  rw [if_neg (by simp), if_neg (by simp)]
  by_cases hlt : c.g + d < n.g
  · rw [if_pos hlt, if_pos hlt]
  · rw [if_neg hlt, if_neg hlt]

/-! ## Ghost-log counters used by the claim statements -/

/-- How many times `ProcessIfWalkable` was invoked on a location with a
given movement cost. -/
def countConsidered (s : PathState) (l : Vec3) (cost : Int) : Nat :=
  (s.considerLog.filter fun e => decide (e.1 = l ∧ e.2.2 = cost)).length

/-- How many times `ProcessCell` was invoked on a location. -/
def countRelaxed (s : PathState) (l : Vec3) : Nat :=
  (s.relaxLog.filter fun e => decide (e.1 = l)).length

theorem countConsidered_congr {s t : PathState} (h : t.considerLog = s.considerLog)
    (l : Vec3) (cost : Int) : countConsidered t l cost = countConsidered s l cost := by
  unfold countConsidered
  rw [h]

theorem countRelaxed_congr {s t : PathState} (h : t.relaxLog = s.relaxLog)
    (l : Vec3) : countRelaxed t l = countRelaxed s l := by
  unfold countRelaxed
  rw [h]

theorem invC_initial (a b : Vec3) : InvC (initialState a b) := by
  refine ⟨List.nodup_nil, ?_, ?_⟩
  · intro x c hx
    simp [initialState, mlookup] at hx
  · intro x
    simp [initialState, oracleCount, mlookup]

/-! ## The claims -/

/-- C7: for every search, the first `GetCell` call for a location
creates one cell keyed by that location, inserts it, and queries the
walkability oracle exactly once; every later `GetCell` call for the same
location (including the recursive calls made from inside the oracle's
fence/liquid side effects, covered because the statement quantifies over
every invariant-satisfying state) returns that same cached cell with the
state completely unchanged; and the cache never holds two distinct cells
for one location (`InvC` includes `Nodup` of the keys). -/
theorem C7_cache_exactly_once (w : World) (fuel : Nat) (s : PathState) (l : Vec3)
    (hInv : InvC s) {t : PathState} {c : PathCell}
    (h : getCell w fuel s l = some (t, c)) :
    InvC t ∧ c.loc = l ∧ mlookup t.map l = some c ∧
      ((mlookup s.map l = some c ∧ t = s) ∨
       (mlookup s.map l = none ∧ oracleCount t l = 1)) := by
  have hmain := (cache_inv w fuel).1 s l t c hInv h
  exact ⟨hmain.1, hmain.2.1, hmain.2.2.1, hmain.2.2.2.2⟩

/-- A default cell used only to destructure concrete `Option` results. -/
def defCell : PathCell := ⟨⟨0, 0, 0⟩, 0, 0, 0, .NOLIST, none, false⟩

def C7run : PathState × PathCell :=
  (getCell nullWorld 3 (initialState ⟨0, 0, 0⟩ ⟨1, 0, 0⟩) ⟨0, 0, 0⟩).getD
    (initialState ⟨0, 0, 0⟩ ⟨1, 0, 0⟩, defCell)

def C7t : PathState := C7run.1

def C7c : PathCell := C7run.2

/-- Witness for C7 at a concrete world and location: the first call
caches the cell and asks the oracle once; the second call returns the
identical state and cell. -/
theorem C7_cache_exactly_once_witness :
    getCell nullWorld 3 (initialState ⟨0, 0, 0⟩ ⟨1, 0, 0⟩) ⟨0, 0, 0⟩ = some (C7t, C7c) ∧
    InvC C7t ∧ C7c.loc = ⟨0, 0, 0⟩ ∧ mlookup C7t.map ⟨0, 0, 0⟩ = some C7c ∧
    oracleCount C7t ⟨0, 0, 0⟩ = 1 ∧
    getCell nullWorld 3 C7t ⟨0, 0, 0⟩ = some (C7t, C7c) := by
  have h := C7_cache_exactly_once nullWorld 3 (initialState ⟨0, 0, 0⟩ ⟨1, 0, 0⟩) ⟨0, 0, 0⟩
    (invC_initial ⟨0, 0, 0⟩ ⟨1, 0, 0⟩) rfl
  refine ⟨rfl, h.1, h.2.1, h.2.2.1, ?_, rfl⟩
  rcases h.2.2.2 with ⟨hl, _⟩ | ⟨_, hcnt⟩
  · simp [initialState, mlookup] at hl
  · exact hcnt

/-- C2: the constructor resolves the source cell first (and, by the
short-circuit of the `||`, the destination only if the source was not
solid); if either endpoint resolves as solid the search is immediately
`PATH_NOT_FOUND` with zero search steps executed, an empty open list and
no `ProcessCell` invocation; and the search is `CALCULATING` if and only
if both endpoints resolved non-solid. -/
theorem C2_endpoint_gate (w : World) (fuel : Nat) (start dest : Vec3) (B : Int)
    {s1 s2 : PathState} {c1 c2 : PathCell} {t : PathState}
    (h1 : getCell w fuel (initialState start dest) start = some (s1, c1))
    (h2 : getCell w fuel s1 dest = some (s2, c2))
    (h : cPathInit w fuel start dest B = some t) :
    (t.status = .CALCULATING ↔ (c1.isSolid = false ∧ c2.isSolid = false)) ∧
    ((c1.isSolid = true ∨ c2.isSolid = true) →
      t.status = .PATH_NOT_FOUND ∧ t.stepsExecuted = 0 ∧ t.openList = [] ∧
      t.relaxLog = []) := by
  obtain ⟨k1, k2, k3, k4, k5, k6, k7, k8, k9, k10, k11⟩ := getCell_frame w fuel _ _ _ _ h1
  simp only [cPathInit, h1] at h
  split at h
  · next hc1 =>
    cases h
    refine ⟨by simp [hc1], fun _ => ⟨rfl, ?_, ?_, ?_⟩⟩
    · show s1.stepsExecuted = 0
      rw [k7]
      rfl
    · show s1.openList = []
      rw [k1]
      rfl
    · show s1.relaxLog = []
      rw [k9]
      rfl
  · next hc1 =>
    rw [Bool.not_eq_true] at hc1
    obtain ⟨m1, m2, m3, m4, m5, m6, m7, m8, m9, m10, m11⟩ := getCell_frame w fuel _ _ _ _ h2
    simp only [h2] at h
    split at h
    · next hc2 =>
      cases h
      refine ⟨by simp [hc1, hc2], fun _ => ⟨rfl, ?_, ?_, ?_⟩⟩
      · show s2.stepsExecuted = 0
        rw [m7, k7]
        rfl
      · show s2.openList = []
        rw [m1, k1]
        rfl
      · show s2.relaxLog = []
        rw [m9, k9]
        rfl
    · next hc2 =>
      rw [Bool.not_eq_true] at hc2
      obtain ⟨e1, e2, e3, e4, e5, e6, e7, e8⟩ := processCell_frame _ _ _ _ _ h
      refine ⟨?_, fun hor => ?_⟩
      · rw [e1]
        simp [hc1, hc2]
      · rcases hor with hx | hx
        · rw [hc1] at hx
          cases hx
        · rw [hc2] at hx
          cases hx

def C2run1 : PathState × PathCell :=
  (getCell nullWorld 3 (initialState ⟨0, 0, 0⟩ ⟨1, 0, 0⟩) ⟨0, 0, 0⟩).getD
    (initialState ⟨0, 0, 0⟩ ⟨1, 0, 0⟩, defCell)

def C2run2 : PathState × PathCell :=
  (getCell nullWorld 3 C2run1.1 ⟨1, 0, 0⟩).getD (C2run1.1, defCell)

def C2t : PathState :=
  (cPathInit nullWorld 3 ⟨0, 0, 0⟩ ⟨1, 0, 0⟩ 7).getD (initialState ⟨0, 0, 0⟩ ⟨1, 0, 0⟩)

/-- Witness for C2 in a world with no loaded chunks: both endpoints
resolve solid, the search is immediately `PATH_NOT_FOUND` and no
computation happened. -/
theorem C2_endpoint_gate_witness :
    getCell nullWorld 3 (initialState ⟨0, 0, 0⟩ ⟨1, 0, 0⟩) ⟨0, 0, 0⟩ =
      some (C2run1.1, C2run1.2) ∧
    getCell nullWorld 3 C2run1.1 ⟨1, 0, 0⟩ = some (C2run2.1, C2run2.2) ∧
    cPathInit nullWorld 3 ⟨0, 0, 0⟩ ⟨1, 0, 0⟩ 7 = some C2t ∧
    (C2t.status = .CALCULATING ↔ (C2run1.2.isSolid = false ∧ C2run2.2.isSolid = false)) ∧
    (C2t.status = .PATH_NOT_FOUND ∧ C2t.stepsExecuted = 0 ∧ C2t.openList = [] ∧
      C2t.relaxLog = []) := by
  have h := C2_endpoint_gate nullWorld 3 ⟨0, 0, 0⟩ ⟨1, 0, 0⟩ 7 rfl rfl rfl
  exact ⟨rfl, rfl, rfl, h.1, h.2 (Or.inl rfl)⟩

/-- C3: during the diagonal phase of one expansion, the diagonal
neighbor `(x, 0, z)` of the popped cell is handed to
`ProcessIfWalkable` with cost 14 only when both flanking orthogonal
cells resolve non-solid and the floor cells below both flanks resolve
solid (the resolutions `h1`–`h4` are exactly the `GetCell` calls the
source performs, in its short-circuit order); whenever any of the four
conditions fails, the diagonal candidate is never considered. -/
theorem C3_diagonal_corner_rule (w : World) (fuel : Nat) (cur : Vec3) (x z : Int)
    (s : PathState) {s1 s2 s3 s4 : PathState} {c1 c2 c3 c4 : PathCell} {t : PathState}
    (h1 : getCell w fuel s (cur + ⟨x, 0, 0⟩) = some (s1, c1))
    (h2 : getCell w fuel s1 (cur + ⟨0, 0, z⟩) = some (s2, c2))
    (h3 : getCell w fuel s2 (cur + ⟨x, -1, 0⟩) = some (s3, c3))
    (h4 : getCell w fuel s3 (cur + ⟨0, -1, z⟩) = some (s4, c4))
    (h : diagStep w fuel cur x z s = some t)
    (hbad : ¬(c1.isSolid = false ∧ c2.isSolid = false ∧ c3.isSolid = true ∧
              c4.isSolid = true)) :
    countConsidered t (cur + ⟨x, 0, z⟩) 14 = countConsidered s (cur + ⟨x, 0, z⟩) 14 := by
  obtain ⟨k1, _, _, _, _, _, _, _, _, k10, _⟩ := getCell_frame w fuel _ _ _ _ h1
  simp only [diagStep, h1] at h
  split at h
  · next hs1 =>
    cases h
    exact countConsidered_congr k10 _ _
  · next hs1 =>
    rw [Bool.not_eq_true] at hs1
    obtain ⟨_, _, _, _, _, _, _, _, _, l10, _⟩ := getCell_frame w fuel _ _ _ _ h2
    simp only [h2] at h
    split at h
    · next hs2 =>
      cases h
      exact countConsidered_congr (l10.trans k10) _ _
    · next hs2 =>
      rw [Bool.not_eq_true] at hs2
      obtain ⟨_, _, _, _, _, _, _, _, _, n10, _⟩ := getCell_frame w fuel _ _ _ _ h3
      simp only [h3] at h
      split at h
      · next hs3 =>
        obtain ⟨_, _, _, _, _, _, _, _, _, o10, _⟩ := getCell_frame w fuel _ _ _ _ h4
        simp only [h4] at h
        split at h
        · next hs4 =>
          exact absurd ⟨hs1, hs2, hs3, hs4⟩ hbad
        · next hs4 =>
          cases h
          exact countConsidered_congr (o10.trans (n10.trans (l10.trans k10))) _ _
      · next hs3 =>
        cases h
        exact countConsidered_congr (n10.trans (l10.trans k10)) _ _

def C3t : PathState :=
  (diagStep nullWorld 3 ⟨0, 0, 0⟩ 1 1 (initialState ⟨0, 0, 0⟩ ⟨1, 0, 0⟩)).getD
    (initialState ⟨0, 0, 0⟩ ⟨1, 0, 0⟩)

/-- Witness for C3 in a world with no loaded chunks: the first flank
resolves solid, so the diagonal `(1, 0, 1)` is never considered. -/
theorem C3_diagonal_corner_rule_witness :
    diagStep nullWorld 3 ⟨0, 0, 0⟩ 1 1 (initialState ⟨0, 0, 0⟩ ⟨1, 0, 0⟩) = some C3t ∧
    countConsidered C3t ⟨1, 0, 1⟩ 14 =
      countConsidered (initialState ⟨0, 0, 0⟩ ⟨1, 0, 0⟩) ⟨1, 0, 1⟩ 14 := by
  have h := C3_diagonal_corner_rule nullWorld 3 ⟨0, 0, 0⟩ 1 1
    (initialState ⟨0, 0, 0⟩ ⟨1, 0, 0⟩) rfl rfl rfl rfl rfl (by decide)
  exact ⟨rfl, h⟩

/-- C4: a candidate handed to `ProcessIfWalkable` reaches relaxation
(`ProcessCell`) only if the candidate cell resolves non-solid, the cell
directly below it resolves solid, and the cell directly above it
resolves non-solid (the resolutions `h1`–`h3` are exactly the `GetCell`
calls the source performs, in its short-circuit order); a candidate
failing any of the three checks causes no `ProcessCell` invocation and
leaves the open list untouched. -/
theorem C4_walkability_filter (w : World) (fuel : Nat) (s : PathState) (l parent : Vec3)
    (cost : Int) {s1 s2 s3 : PathState} {c1 c2 c3 : PathCell} {t : PathState}
    (h1 : getCell w fuel (addConsider s l parent cost) l = some (s1, c1))
    (h2 : getCell w fuel s1 (l + vDown) = some (s2, c2))
    (h3 : getCell w fuel s2 (l + vUp) = some (s3, c3))
    (h : processIfWalkable w fuel s l parent cost = some t)
    (hbad : ¬(c1.isSolid = false ∧ c2.isSolid = true ∧ c3.isSolid = false)) :
    countRelaxed t l = countRelaxed s l ∧ t.openList = s.openList := by
  obtain ⟨k1, _, _, _, _, _, _, _, k9, _, _⟩ := getCell_frame w fuel _ _ _ _ h1
  simp only [processIfWalkable, h1] at h
  split at h
  · next hs1 =>
    cases h
    exact ⟨countRelaxed_congr k9 _, k1⟩
  · next hs1 =>
    rw [Bool.not_eq_true] at hs1
    obtain ⟨l1, _, _, _, _, _, _, _, l9, _, _⟩ := getCell_frame w fuel _ _ _ _ h2
    simp only [h2] at h
    split at h
    · next hs2 =>
      obtain ⟨n1, _, _, _, _, _, _, _, n9, _, _⟩ := getCell_frame w fuel _ _ _ _ h3
      simp only [h3] at h
      split at h
      · next hs3 =>
        cases h
        exact ⟨countRelaxed_congr (n9.trans (l9.trans k9)) _, n1.trans (l1.trans k1)⟩
      · next hs3 =>
        rw [Bool.not_eq_true] at hs3
        exact absurd ⟨hs1, hs2, hs3⟩ hbad
    · next hs2 =>
      cases h
      exact ⟨countRelaxed_congr (l9.trans k9) _, l1.trans k1⟩

def C4t : PathState :=
  (processIfWalkable nullWorld 3 (initialState ⟨0, 0, 0⟩ ⟨1, 0, 0⟩) ⟨0, 0, 0⟩ ⟨9, 9, 9⟩
    10).getD (initialState ⟨0, 0, 0⟩ ⟨1, 0, 0⟩)

/-- Witness for C4 in a world with no loaded chunks: the candidate
resolves solid, so it is discarded without relaxation or a push. -/
theorem C4_walkability_filter_witness :
    processIfWalkable nullWorld 3 (initialState ⟨0, 0, 0⟩ ⟨1, 0, 0⟩) ⟨0, 0, 0⟩ ⟨9, 9, 9⟩ 10 =
      some C4t ∧
    countRelaxed C4t ⟨0, 0, 0⟩ = countRelaxed (initialState ⟨0, 0, 0⟩ ⟨1, 0, 0⟩) ⟨0, 0, 0⟩ ∧
    C4t.openList = (initialState ⟨0, 0, 0⟩ ⟨1, 0, 0⟩).openList := by
  have h := C4_walkability_filter nullWorld 3 (initialState ⟨0, 0, 0⟩ ⟨1, 0, 0⟩) ⟨0, 0, 0⟩
    ⟨9, 9, 9⟩ 10 rfl rfl rfl rfl (by decide)
  exact ⟨rfl, h.1, h.2⟩

/-- An open cell about to be relaxed: `f = 50`, `g = 20`, `h = 30`. -/
def relaxN : PathCell := ⟨⟨2, 0, 0⟩, 50, 20, 30, .OPENLIST, none, false⟩

/-- The caller cell for the relaxation: `g = 0`. -/
def relaxC : PathCell := ⟨⟨1, 0, 0⟩, 40, 0, 40, .CLOSEDLIST, none, false⟩

/-- A state holding the two cells above, with the open cell on the open
list. -/
def relaxState : PathState :=
  { initialState ⟨0, 0, 0⟩ ⟨9, 0, 0⟩ with
      map := [(⟨2, 0, 0⟩, relaxN), (⟨1, 0, 0⟩, relaxC)], openList := [⟨2, 0, 0⟩] }

/-- Counterexample to C5 as stated: relaxing the open cell `N`
(`g = 20`, `h = 30`, `f = 50`) from caller `C` (`g = 0`) with move cost
10 improves `newG = 10 < 20`, and the source sets `N.g = 10` and
`N.parent = C` — but the priority key `m_F` stays 50 instead of being
re-prioritized to reflect the new `f` (`g + h = 10 + 30 = 40`), and `m_H`
is clobbered to `f_old + newG = 60` rather than recomputed; the open
list entry is not touched at all. -/
theorem C5_counterexample :
    (processCell relaxState ⟨2, 0, 0⟩ (some ⟨1, 0, 0⟩) 10).map
        (fun t => ((mlookup t.map ⟨2, 0, 0⟩).map fun cc => (cc.f, cc.g, cc.h, cc.parent),
                   t.openList)) =
      some (some (50, 10, 60, some ⟨1, 0, 0⟩), [⟨2, 0, 0⟩]) ∧
    (50 : Int) ≠ 10 + 30 ∧ (50 : Int) ≠ 10 + 60 := by
  refine ⟨by rfl, by decide, by decide⟩

/-- C5 amended: when relaxing a candidate cell `N` that is already
`Open`, with caller `C` and move cost `d`: if `newG = C.g + d < N.g`
then `N.g` is set to `newG`, `N.parent` to `C`, and `N.h` to
`N.f + newG` (the source's `m_H = m_F + m_G` with the stale `m_F`);
`N.f` — the key that orders the open list — and the open list itself are
left unchanged (no re-prioritization takes place); if `newG ≥ N.g`
nothing about `N` changes. -/
theorem C5_open_relaxation (s : PathState) (nloc cloc : Vec3) (d : Int) (n c : PathCell)
    {t : PathState}
    (hn : mlookup s.map nloc = some n) (hst : n.status = .OPENLIST)
    (hc : mlookup s.map cloc = some c)
    (h : processCell s nloc (some cloc) d = some t) :
    (mlookup t.map nloc).map PathCell.f = some n.f ∧
    t.openList = s.openList ∧
    (c.g + d < n.g →
      mlookup t.map nloc = some { n with g := c.g + d, h := n.f + (c.g + d), parent := some cloc }) ∧
    (¬(c.g + d < n.g) → mlookup t.map nloc = some n) := by
  rw [processCell_open s nloc cloc d n c hn hst hc] at h
  by_cases hlt : c.g + d < n.g
  · rw [if_pos hlt] at h
    cases h
    have hm : mlookup (mupdate s.map nloc (fun cc =>
        { cc with g := c.g + d, h := cc.f + (c.g + d), parent := some cloc })) nloc =
        some { n with g := c.g + d, h := n.f + (c.g + d), parent := some cloc } := by
      rw [mlookup_mupdate, if_pos rfl, hn]
      rfl
    refine ⟨?_, rfl, fun _ => hm, fun hx => absurd hlt hx⟩
    show (mlookup (mupdate s.map nloc (fun cc =>
        { cc with g := c.g + d, h := cc.f + (c.g + d), parent := some cloc })) nloc).map
        PathCell.f = some n.f
    rw [hm]
    rfl
  · rw [if_neg hlt] at h
    cases h
    refine ⟨?_, rfl, fun hx => absurd hx hlt, fun _ => hn⟩
    show (mlookup s.map nloc).map PathCell.f = some n.f
    rw [hn]
    rfl

def C5t : PathState :=
  (processCell relaxState ⟨2, 0, 0⟩ (some ⟨1, 0, 0⟩) 10).getD relaxState

/-- Witness for C5 (amended) at the concrete relaxation state. -/
theorem C5_open_relaxation_witness :
    processCell relaxState ⟨2, 0, 0⟩ (some ⟨1, 0, 0⟩) 10 = some C5t ∧
    (mlookup C5t.map ⟨2, 0, 0⟩).map PathCell.f = some relaxN.f ∧
    C5t.openList = relaxState.openList ∧
    mlookup C5t.map ⟨2, 0, 0⟩ = some ⟨⟨2, 0, 0⟩, 50, 10, 60, .OPENLIST, some ⟨1, 0, 0⟩, false⟩ := by
  have h := C5_open_relaxation relaxState ⟨2, 0, 0⟩ ⟨1, 0, 0⟩ 10 relaxN relaxC rfl rfl rfl rfl
  exact ⟨rfl, h.1, h.2.1, h.2.2.1 (by decide)⟩

/-- C6 (the failing input): with a fence at `(0,0,0)` and stationary
water directly above it at `(0,1,0)`, resolving the water cell first
makes the fence's override vanish: inside `GetCell (0,1,0)`, the water
side effect fully resolves the fence at `(0,0,0)` (oracle consulted
exactly once), and the fence side effect duly forces
`cache[(0,1,0)].isSolid = true` — but when control returns to
`GetCell (0,1,0)`, the assignment `Cell->m_IsSolid = IsSolid(...)`
overwrites the override with the water block's own answer `false`. The
claim (and the source's own comment, "mobs will always think that the
fence is 2 blocks high") requires the cell above the resolved fence to
be solid; the second conjunct shows the override does survive when the
fence is resolved first, so the rule is order-dependent. -/
theorem C6_fence_override_lost :
    (getCell fenceWaterWorld 10 (initialState ⟨0, 9, 9⟩ ⟨9, 9, 9⟩) ⟨0, 1, 0⟩).map
        (fun p => ((mlookup p.1.map ⟨0, 1, 0⟩).map PathCell.isSolid,
                   (mlookup p.1.map ⟨0, 0, 0⟩).map PathCell.isSolid,
                   oracleCount p.1 ⟨0, 0, 0⟩)) =
      some (some false, some true, 1) ∧
    (getCell fenceWaterWorld 10 (initialState ⟨0, 9, 9⟩ ⟨9, 9, 9⟩) ⟨0, 0, 0⟩).map
        (fun p => (mlookup p.1.map ⟨0, 1, 0⟩).map PathCell.isSolid) =
      some (some true) := by
  exact ⟨by rfl, by rfl⟩

/-- Counterexample to C1 as stated: with a caller-supplied budget of 0
the claimed cap is `5 × 0 = 0` steps, yet a full search on a flat floor
from `(0,0,0)` to `(1,0,0)` executes one step and terminates
`PATH_FOUND` — the cap is not enforced at all for budget 0 (see C9), so
neither "at most stepsPerInvocation × stepBudget steps" nor "forcibly
finalized with PathNotFound" holds there. -/
theorem C1_counterexample :
    (runSearch flatWorld 5 10 60 ⟨0, 0, 0⟩ ⟨1, 0, 0⟩ 0).map
        (fun t => (t.stepsExecuted, t.status)) = some (1, .PATH_FOUND) ∧
    ¬(1 ≤ 5 * 0) := by
  exact ⟨by rfl, by decide⟩

/-- C1 amended (restricted to budgets of at least 1, the only change
the counterexample forces): one `cPath::Step` invocation with
`m_StepsLeft = B ≥ 1` executes at most `5 × B` search steps (the loop in
fact runs at most `5 × B − 1` of them), never returns `CALCULATING`,
reports no partial path on failure, and if the cap ended the loop the
status is the forced `PATH_NOT_FOUND`. -/
theorem C1_budget_cap (w : World) (fuel wfuel lfuel : Nat) (s : PathState) (B : Int)
    (hB : s.stepsLeft = B) (hpos : 1 ≤ B) (hpp : s.pathPoints = [])
    (hbf : s.budgetFinalized = false) {t : PathState}
    (h : cPathStep w fuel wfuel lfuel s = some t) :
    t.stepsExecuted ≤ s.stepsExecuted + (5 * B).toNat ∧
    (t.status = .PATH_FOUND ∨ t.status = .PATH_NOT_FOUND) ∧
    t.status ≠ .CALCULATING ∧
    (t.status = .PATH_NOT_FOUND → t.pathPoints = []) ∧
    (t.budgetFinalized = true → t.status = .PATH_NOT_FOUND) := by
  simp only [cPathStep, hB] at h
  have hle := stepLoop_le w fuel wfuel (5 * B) lfuel 1 s t (le_refl 1) (by omega) h
  have hpost := stepLoop_post w fuel wfuel (5 * B) lfuel 1 s t h
  refine ⟨by omega, hpost.1, ?_, ?_, ?_⟩
  · rcases hpost.1 with h1 | h1 <;> rw [h1] <;> simp
  · intro hnf
    rw [hpost.2.2.1 (by rw [hnf]; simp), hpp]
  · exact hpost.2.2.2 hbf

def C1s : PathState :=
  (cPathInit flatWorld 5 ⟨0, 0, 0⟩ ⟨1, 0, 0⟩ 1).getD (initialState ⟨0, 0, 0⟩ ⟨1, 0, 0⟩)

def C1t : PathState := (cPathStep flatWorld 5 10 60 C1s).getD C1s

/-- Witness for C1 (amended) at budget 1 on the flat world. -/
theorem C1_budget_cap_witness :
    C1s.stepsLeft = 1 ∧ C1s.pathPoints = [] ∧ C1s.budgetFinalized = false ∧
    cPathStep flatWorld 5 10 60 C1s = some C1t ∧
    C1t.stepsExecuted ≤ C1s.stepsExecuted + ((5 : Int) * 1).toNat ∧
    C1t.status ≠ .CALCULATING := by
  have h := C1_budget_cap flatWorld 5 10 60 C1s 1 rfl (by decide) rfl rfl rfl
  exact ⟨rfl, rfl, rfl, rfl, h.1, h.2.2.1⟩

/-- C9: with a caller-supplied budget of 0, the loop bound
`CALCULATIONS_PER_STEP * m_StepsLeft` is `5 * 0 = 0` while the counter
starts at 1, so the `Step != bound` condition never stops the loop: the
budget exit is never taken (`budgetFinalized` stays false), at least one
`StepOnce` executes, and the search can only terminate through
`StepOnce` itself — path found or open list exhausted. -/
theorem C9_zero_budget (w : World) (fuel wfuel lfuel : Nat) (s : PathState)
    (hB : s.stepsLeft = 0) (hbf : s.budgetFinalized = false) {t : PathState}
    (h : cPathStep w fuel wfuel lfuel s = some t) :
    t.budgetFinalized = false ∧ s.stepsExecuted + 1 ≤ t.stepsExecuted ∧
    (t.status = .PATH_FOUND ∨ t.status = .PATH_NOT_FOUND) := by
  simp only [cPathStep, hB] at h
  have hno := stepLoop_nocap w fuel wfuel (5 * 0) lfuel 1 s t (by norm_num) h
  have hpost := stepLoop_post w fuel wfuel (5 * 0) lfuel 1 s t h
  exact ⟨hno.1.trans hbf, hno.2, hpost.1⟩

def C9s : PathState :=
  (cPathInit flatWorld 5 ⟨0, 0, 0⟩ ⟨1, 0, 0⟩ 0).getD (initialState ⟨0, 0, 0⟩ ⟨1, 0, 0⟩)

def C9t : PathState := (cPathStep flatWorld 5 10 60 C9s).getD C9s

/-- Witness for C9: the flat-world search constructed with budget 0
runs (one step suffices here) and terminates `PATH_FOUND`, with no
budget-based stop. -/
theorem C9_zero_budget_witness :
    C9s.stepsLeft = 0 ∧ C9s.budgetFinalized = false ∧
    cPathStep flatWorld 5 10 60 C9s = some C9t ∧
    C9t.budgetFinalized = false ∧ C9s.stepsExecuted + 1 ≤ C9t.stepsExecuted ∧
    C9t.status = .PATH_FOUND := by
  have h := C9_zero_budget flatWorld 5 10 60 C9s rfl rfl rfl
  exact ⟨rfl, rfl, rfl, h.1, h.2.1, by rfl⟩

/-- Counterexample to C8 as stated: the flat-floor search from
`(0,0,0)` to `(5,0,0)` (ample budget) terminates with 5 waypoints, not
the claimed 6 — the search stops on popping the goal-adjacent cell
`(4,0,0)` and the goal itself is never part of the path. -/
theorem C8_counterexample :
    (runSearch flatWorld 5 10 60 ⟨0, 0, 0⟩ ⟨5, 0, 0⟩ 100).map
        (fun t => t.pathPoints.length) = some 5 ∧ (5 : Nat) ≠ 6 := by
  exact ⟨by rfl, by decide⟩

/-- C8 amended: on the flat solid floor, the search from `(0,0,0)` to
`(5,0,0)` with ample budget terminates `PATH_FOUND` after exactly 5
expansions; the stored path (goal-to-start order, as `m_PathPoints` is
built by the parent walk) is `(4,0,0), …, (0,0,0)` — 5 waypoints whose
`x` increases monotonically from start to goal once reversed, ending at
the goal-adjacent cell, not the goal; the accumulated cost `m_G` of the
popped cells grows by 10 per move up to 40 (4 moves × 10), not ≈ 50. -/
theorem C8_flat_run :
    (runSearch flatWorld 5 10 60 ⟨0, 0, 0⟩ ⟨5, 0, 0⟩ 100).map
        (fun t => (t.status, t.pathPoints, t.poppedLog)) =
      some (.PATH_FOUND,
        [⟨4, 0, 0⟩, ⟨3, 0, 0⟩, ⟨2, 0, 0⟩, ⟨1, 0, 0⟩, ⟨0, 0, 0⟩],
        [(⟨0, 0, 0⟩, 0), (⟨1, 0, 0⟩, 10), (⟨2, 0, 0⟩, 20), (⟨3, 0, 0⟩, 30),
         (⟨4, 0, 0⟩, 40)]) := by
  rfl

/-- `OpenListPop` on a state whose open list holds exactly one location:
that location is popped, closed, and logged with its current `m_G`. -/
theorem openListPop_single (s : PathState) (l : Vec3) (g : Int) (cell : PathCell)
    (hol : s.openList = [l]) (hg : mlookup s.map l = some cell) (hcg : cell.g = g) :
    openListPop s =
      some ({ s with openList := [], map := mupdate s.map l (fun c => { c with status := .CLOSEDLIST }), poppedLog := s.poppedLog ++ [(l, g)] }, l) := by
  subst hcg
  simp only [openListPop, hol, selectMin, removeFirst, hg, if_pos]

/-- One `StepOnce` on a state whose open list holds exactly one
location appends exactly that pop to the ghost pop log, whatever else
the step does. -/
theorem stepOnce_single_pop (w : World) (fuel wfuel : Nat) (t : PathState) (start : Vec3)
    (g : Int) (cell : PathCell) (b : Bool) (u : PathState)
    (hol : t.openList = [start]) (hg : mlookup t.map start = some cell) (hcg : cell.g = g)
    (hstep : stepOnce w fuel wfuel t = some (b, u)) :
    u.poppedLog = t.poppedLog ++ [(start, g)] := by
  simp only [stepOnce,
    openListPop_single { t with stepsExecuted := t.stepsExecuted + 1 } start g cell hol hg
      hcg] at hstep
  split at hstep
  · split at hstep
    · exact absurd hstep (by simp)
    · next s2 heqw =>
      obtain ⟨_, _, _, _, w5⟩ := walkParents_frame wfuel _ _ s2 heqw
      cases hstep
      show s2.poppedLog = _
      rw [w5]
  · split at hstep
    · exact absurd hstep (by simp)
    · next sA heqA =>
      have eA := processOffsets_frame w fuel start orthoOffsets _ sA heqA
      split at hstep
      · exact absurd hstep (by simp)
      · next sB heqB =>
        have eB := expFrame_trans eA (diagStep_frame w fuel start _ _ _ _ heqB)
        split at hstep
        · exact absurd hstep (by simp)
        · next sC heqC =>
          have eC := expFrame_trans eB (diagStep_frame w fuel start _ _ _ _ heqC)
          split at hstep
          · exact absurd hstep (by simp)
          · next sD heqD =>
            have eD := expFrame_trans eC (diagStep_frame w fuel start _ _ _ _ heqD)
            split at hstep
            · exact absurd hstep (by simp)
            · next sE heqE =>
              have eE := expFrame_trans eD (diagStep_frame w fuel start _ _ _ _ heqE)
              cases hstep
              rw [eE.2.2.2.2.2.2.2]

/-- Counterexample to C10 as stated: in an all-air world with one stone
block at the goal `(3,0,0)`, the start `(0,0,0)` resolves non-solid and
has no solid cell below it, yet the search does not enter `CALCULATING`
— the goal resolves solid, so the constructor stops at
`PATH_NOT_FOUND` with nothing seeded and no `ProcessCell` call. -/
theorem C10_counterexample :
    (getCell voidStoneWorld 5 (initialState ⟨0, 0, 0⟩ ⟨3, 0, 0⟩) ⟨0, 0, 0⟩).map
        (fun p => p.2.isSolid) = some false ∧
    (getCell voidStoneWorld 5 (initialState ⟨0, 0, 0⟩ ⟨3, 0, 0⟩) ⟨0, -1, 0⟩).map
        (fun p => p.2.isSolid) = some false ∧
    (cPathInit voidStoneWorld 5 ⟨0, 0, 0⟩ ⟨3, 0, 0⟩ 10).map
        (fun t => (t.status, t.openList, t.relaxLog.length)) =
      some (.PATH_NOT_FOUND, [], 0) := by
  exact ⟨by rfl, by rfl, by rfl⟩

/-- C10 amended (adding the implicit requirement that the goal also
resolves non-solid, without which the endpoint check of C2 aborts the
search first): the constructor seeds the start cell through a direct
`ProcessCell` call, bypassing `ProcessIfWalkable` entirely — no
hypothesis about a floor below or headroom above the start appears
below, yet the search enters `CALCULATING` with the start as the only
open cell (`ProcessIfWalkable` was never invoked: the consider log is
empty), and the first `StepOnce` pops — expands — the start cell. -/
theorem C10_seed_bypass (w : World) (fuel : Nat) (start dest : Vec3) (B : Int)
    {s1 s2 : PathState} {c1 c2 : PathCell} {t : PathState}
    (h1 : getCell w fuel (initialState start dest) start = some (s1, c1))
    (hs : c1.isSolid = false)
    (h2 : getCell w fuel s1 dest = some (s2, c2))
    (hd : c2.isSolid = false)
    (h : cPathInit w fuel start dest B = some t) :
    t.status = .CALCULATING ∧ t.openList = [start] ∧
    t.relaxLog = [(start, none, 0)] ∧ t.considerLog = [] ∧
    ∀ (wf : Nat) (b : Bool) (u : PathState),
      stepOnce w fuel wf t = some (b, u) → u.poppedLog = [(start, 0)] := by
  obtain ⟨k1, _, _, _, _, _, _, _, k9, k10, k11⟩ := getCell_frame w fuel _ _ _ _ h1
  obtain ⟨m1, _, _, _, _, _, _, _, m9, m10, m11⟩ := getCell_frame w fuel _ _ _ _ h2
  -- the start cell is cached with status NOLIST when the seed call runs
  have hstart1 : mlookup s1.map start = some c1 :=
    ((cache_inv w fuel).1 _ _ _ _ (invC_initial start dest) h1).2.2.1
  have hc1st : c1.status = .NOLIST := by
    rcases (cache_statusFrame w fuel).1 _ _ _ _ h1 start with hx | hx
    · rw [hstart1] at hx
      simp [initialState, mlookup] at hx
    · rw [hstart1] at hx
      simpa using hx
  have hstart2 : Option.map PathCell.status (mlookup s2.map start) =
      some CellStatus.NOLIST := by
    rcases (cache_statusFrame w fuel).1 _ _ _ _ h2 start with hx | hx
    · rw [hstart1] at hx
      simpa [hc1st] using hx
    · exact hx
  obtain ⟨cS, hcS, hcSst⟩ : ∃ cS, mlookup s2.map start = some cS ∧ cS.status = .NOLIST := by
    cases hlk : mlookup s2.map start with
    | none =>
      rw [hlk] at hstart2
      cases hstart2
    | some cS =>
      rw [hlk] at hstart2
      exact ⟨cS, rfl, by simpa using hstart2⟩
  simp only [cPathInit, h1, hs, Bool.false_eq_true, if_false, h2, hd] at h
  rw [processCell_seed { s2 with status := PathStatus.CALCULATING, stepsLeft := B } start cS
    hcS hcSst] at h
  cases h
  refine ⟨rfl, ?_, ?_, ?_, ?_⟩
  · show s2.openList ++ [start] = [start]
    rw [m1, k1]
    rfl
  · show s2.relaxLog ++ [(start, none, 0)] = [(start, none, 0)]
    rw [m9, k9]
    rfl
  · show s2.considerLog = []
    rw [m10, k10]
    rfl
  · intro wf b u hstep
    have hol : ({ s2 with status := PathStatus.CALCULATING, stepsLeft := B } : PathState).openList ++ [start] = [start] := by
      show s2.openList ++ [start] = [start]
      rw [m1, k1]
      rfl
    have hglook : mlookup (mupdate s2.map start
        (seedUpdate ({ s2 with status := PathStatus.CALCULATING, stepsLeft := B } : PathState).destination start)) start =
        some (seedUpdate s2.destination start cS) := by
      rw [mlookup_mupdate, if_pos rfl, hcS]
      rfl
    have hres := stepOnce_single_pop w fuel wf _ start 0
      (seedUpdate s2.destination start cS) b u hol hglook rfl hstep
    rw [hres]
    show s2.poppedLog ++ [(start, 0)] = [(start, 0)]
    rw [m11, k11]
    rfl

def C10t : PathState :=
  (cPathInit voidWorld 5 ⟨0, 0, 0⟩ ⟨3, 0, 0⟩ 10).getD (initialState ⟨0, 0, 0⟩ ⟨3, 0, 0⟩)

def C10u : PathState := ((stepOnce voidWorld 5 10 C10t).getD (false, C10t)).2

/-- Witness for C10 (amended) in an all-air world: the start floats
with air below and air above, yet the constructor seeds it, the search
is `CALCULATING`, and the first step pops it. -/
theorem C10_seed_bypass_witness :
    (getCell voidWorld 5 (initialState ⟨0, 0, 0⟩ ⟨3, 0, 0⟩) ⟨0, -1, 0⟩).map
        (fun p => p.2.isSolid) = some false ∧
    cPathInit voidWorld 5 ⟨0, 0, 0⟩ ⟨3, 0, 0⟩ 10 = some C10t ∧
    C10t.status = .CALCULATING ∧ C10t.openList = [⟨0, 0, 0⟩] ∧
    C10t.relaxLog = [(⟨0, 0, 0⟩, none, 0)] ∧ C10t.considerLog = [] ∧
    stepOnce voidWorld 5 10 C10t = some (false, C10u) ∧
    C10u.poppedLog = [(⟨0, 0, 0⟩, 0)] := by
  have h := C10_seed_bypass voidWorld 5 ⟨0, 0, 0⟩ ⟨3, 0, 0⟩ 10 rfl rfl rfl rfl rfl
  exact ⟨rfl, rfl, h.1, h.2.1, h.2.2.1, h.2.2.2.1, rfl, h.2.2.2.2 10 false C10u rfl⟩

end MCPath
